import Mathlib

/-!
mgo-schema-stat: schema-driven document synthesis and linear size extrapolation.

A shallow embedding of `internal/schema/collection.go` and
`internal/collection/collection.go`, followed by theorems about it.

Conventions of the embedding

* A Go `map[string]T` is an association list (`GoMap T`); a list stands for a
  real map when its keys are pairwise distinct.  `mapaccess` and `mapassign`
  are index and assignment, `mapiter` is `range`, whose order the Go runtime
  leaves unspecified: it is read off the oracle `Rand`.
* All nondeterminism (package `math/rand`, `primitive.NewObjectID`, map
  iteration order) is an explicit oracle `Rand`, a stream of naturals; every
  call consumes one element and reduces it into the documented range of the
  library function.
* A run-time panic is a result: generators return `Except String`, whose
  `error` is the panic message; `collection.Collection.Stat` returns an
  `Outcome`, which separates a returned Go `error` from a panic.
* `int` is 64 bits wide.  `make` follows the Go runtime (`makeslice64`,
  `makeslice`): it panics when the requested size is not a non-negative `int`
  or when the byte size exceeds the platform constant `maxAlloc`, which is a
  parameter here.
* `float64` is read as exact rational arithmetic (`ℚ`).
-/

set_option autoImplicit false

namespace Mgo

/-! ## Go values and runtime primitives -/

/-- Dynamic Go values that flow through `interface{}`: JSON literals of an
enum, generated BSON values, and decoded command replies.  `str` is a Go
string and `bin` a `[]byte`, both with one `Char` per byte; `doc` is a
`bson.D`, `map` a `bson.M`, `arr` a `bson.A`; `float32` keeps the raw draw
`rand.Float32` derives its result from. -/
inductive Value where
  | null
  | bool (b : Bool)
  | int32 (v : Int)
  | int64 (v : Int)
  | float32 (draw : Nat)
  | float64 (q : ℚ)
  | str (s : List Char)
  | bin (b : List Char)
  | objectID (id : Nat)
  | doc (fields : List (String × Value))
  | map (entries : List (String × Value))
  | arr (items : List Value)

/-- A Go map with string keys, as the list of its entries. -/
abbrev GoMap (α : Type) := List (String × α)

/-- Map index expression `m[k]`; `none` is the zero value of a missing key. -/
def mapaccess {α : Type} : GoMap α → String → Option α
  | [], _ => none
  | (k, v) :: rest, key => if k = key then some v else mapaccess rest key

/-- Map assignment `m[k] = v`. -/
def mapassign {α : Type} : GoMap α → String → α → GoMap α
  | [], key, val => [(key, val)]
  | (k, v) :: rest, key, val =>
    if k = key then (key, val) :: rest else (k, v) :: mapassign rest key val

/-- The oracle: the stream of raw values the nondeterministic primitives of a
run will see. -/
abbrev Rand := Nat → Nat

/-- Oracle after one value has been consumed. -/
def Rand.tail (r : Rand) : Rand := fun i => r (i + 1)

/-- Auxiliary loop of `mapiter`: pick the next entry, remove it, continue. -/
def mapiterAux {α : Type} : Nat → List α → Rand → List α × Rand
  | 0, _, r => ([], r)
  | n + 1, l, r =>
    match l.drop (r 0 % l.length) with
    | [] => ([], r)
    | x :: tl =>
      let rest := mapiterAux n (l.take (r 0 % l.length) ++ tl) r.tail
      (x :: rest.1, rest.2)

/-- The order in which one `range` statement visits the entries of a map:
an oracle-chosen rearrangement of the entries. -/
def mapiter {α : Type} (l : List α) (r : Rand) : List α × Rand :=
  mapiterAux l.length l r

/-- Integer remainder `a % b` on non-negative operands; panics on `b = 0`. -/
def goMod (a b : Nat) : Except String Nat :=
  if b = 0 then .error "runtime error: integer divide by zero" else .ok (a % b)

/-- Slice index expression `l[i]`; panics when `i` is out of range. -/
def goIndex {α : Type} (l : List α) (i : Nat) : Except String α :=
  match l.get? i with
  | some x => .ok x
  | none => .error "runtime error: index out of range"

/-- Conversion `int(n)` of a `uint64` on a 64-bit platform (two's complement). -/
def toInt (n : Nat) : Int :=
  if n % 2 ^ 64 < 2 ^ 63 then (n % 2 ^ 64 : Nat) else (n % 2 ^ 64 : Nat) - 2 ^ 64

/-- Whether `make` of `n` elements of `elemSize` bytes succeeds: the size must
be a non-negative `int` and the byte size must not exceed `maxAlloc`. -/
def makeslice (maxAlloc elemSize n : Nat) : Bool :=
  decide (n < 2 ^ 63) && decide (elemSize * n ≤ maxAlloc)

/-- Size in bytes of one `interface{}` slot (two words). -/
def ifaceSize : Nat := 16

namespace rand

/-- Model of `rand.Int63`: a non-negative 63-bit integer. -/
def Int63 (r : Rand) : Nat × Rand := (r 0 % 2 ^ 63, r.tail)

/-- Model of `rand.Int31`: a non-negative 31-bit integer. -/
def Int31 (r : Rand) : Nat × Rand := (r 0 % 2 ^ 31, r.tail)

/-- Model of `rand.Uint32`: a 32-bit unsigned integer. -/
def Uint32 (r : Rand) : Nat × Rand := (r 0 % 2 ^ 32, r.tail)

/-- Model of `rand.Int`: a non-negative `int`. -/
def Int (r : Rand) : Nat × Rand := (r 0 % 2 ^ 63, r.tail)

/-- Model of `rand.Intn(n)`: a value in `[0, n)`; panics if `n <= 0`. -/
def Intn (n : Nat) (r : Rand) : Except String (Nat × Rand) :=
  if n = 0 then .error "invalid argument to Intn" else .ok (r 0 % n, r.tail)

/-- Model of `rand.Float32`: a `float32` in `[0, 1)`, kept as the raw draw
it is derived from. -/
def Float32 (r : Rand) : Value × Rand := (Value.float32 (r 0), r.tail)

end rand

namespace primitive

/-- Model of `primitive.NewObjectID`: a fresh identifier taken from the oracle. -/
def NewObjectID (r : Rand) : Value × Rand := (Value.objectID (r 0), r.tail)

end primitive

/-- A compiled `func() interface{}`: consumes the oracle, returns a value or
panics. -/
abbrev Generator := Rand → Except String (Value × Rand)

/-- A compiled `func() bson.D`. -/
abbrev DocGenerator := Rand → Except String (List (String × Value) × Rand)

/-! ## Package `schema` -/

namespace schema

def objectType : String := "object"
def arrayType : String := "array"
def doubleType : String := "double"
def stringType : String := "string"
def binDataType : String := "binData"
def objectIDType : String := "objectId"
def boolType : String := "bool"
def intType : String := "int"
def longType : String := "long"

def defaultStringMaxLen : Nat := 10
def defaultBinDataMaxLen : Nat := 16
def defaultArrayItemsMaxLen : Nat := 1

/-- FieldType represents document field properties. -/
inductive FieldType where
  | mk (BsonType : String) (Properties : List (String × FieldType)) (Enum : List Value)
      (Items : List FieldType) (MaxLength : Nat) (MaxItems : Nat)

namespace FieldType

def BsonType : FieldType → String
  | mk b _ _ _ _ _ => b
def Properties : FieldType → GoMap FieldType
  | mk _ p _ _ _ _ => p
def Enum : FieldType → List Value
  | mk _ _ e _ _ _ => e
def Items : FieldType → List FieldType
  | mk _ _ _ i _ _ => i
def MaxLength : FieldType → Nat
  | mk _ _ _ _ l _ => l
def MaxItems : FieldType → Nat
  | mk _ _ _ _ _ n => n

end FieldType

/-- Index represents document index properties. -/
structure Index where
  Parts : List (String × Value)
  Unique : Bool
  PartialFilterExpression : GoMap Value

/-- Collection represents collection schema and properties. -/
structure Collection where
  Schema : GoMap FieldType
  Indexes : GoMap Index
  Len : Nat

/-- The alphabet of `randBytes`. -/
def charset : List Char :=
  "abcdefghijklmnopqrstuvwxyzABCDEFGHIJKLMNOPQRSTUVWXYZ0123456789".toList

/-- The loop of `randBytes` over the remaining `n` positions:
`b[i] = charset[rand.Intn(len(charset))]`. -/
def randBytesLoop : Nat → Rand → Except String (List Char × Rand)
  | 0, r => .ok ([], r)
  | n + 1, r =>
    match rand.Intn charset.length r with
    | .error e => .error e
    | .ok (i, r1) =>
      match goIndex charset i with
      | .error e => .error e
      | .ok ch =>
        match randBytesLoop n r1 with
        | .error e => .error e
        | .ok (bs, r2) => .ok (ch :: bs, r2)

/-- Function `randBytes(length)`: `make([]byte, length)`, then fill. -/
def randBytes (maxAlloc length : Nat) (r : Rand) : Except String (List Char × Rand) :=
  if makeslice maxAlloc 1 length then randBytesLoop length r
  else .error "runtime error: makeslice: len out of range"

/-- Body of the closures at lines 67-78 and 139-150: visit the names in the
given order and call the generator stored under each name. -/
def genFields (gens : GoMap Generator) : List String → Rand →
    Except String (List (String × Value) × Rand)
  | [], r => .ok ([], r)
  | name :: rest, r =>
    match mapaccess gens name with
    | none => .error "runtime error: invalid memory address or nil pointer dereference"
    | some g =>
      match g r with
      | .error e => .error e
      | .ok (v, r1) =>
        match genFields gens rest r1 with
        | .error e => .error e
        | .ok (fs, r2) => .ok ((name, v) :: fs, r2)

/-- The loop at lines 171-173: `k` iterations, each picking
`generators[rand.Int() % len(fieldType.Items)]` and calling it. -/
def arrayLoop (gens : List Generator) (nItems : Nat) : Nat → Rand →
    Except String (List Value × Rand)
  | 0, r => .ok ([], r)
  | k + 1, r =>
    match goMod (rand.Int r).1 nItems with
    | .error e => .error e
    | .ok i =>
      match goIndex gens i with
      | .error e => .error e
      | .ok g =>
        match g (rand.Int r).2 with
        | .error e => .error e
        | .ok (v, r1) =>
          match arrayLoop gens nItems k r1 with
          | .error e => .error e
          | .ok (vs, r2) => .ok (v :: vs, r2)

/-- The closure of an enum field (lines 83-85). -/
def enumGenerator (enum : List Value) : Generator := fun r =>
  match goMod (rand.Int r).1 enum.length with
  | .error e => .error e
  | .ok i =>
    match goIndex enum i with
    | .error e => .error e
    | .ok v => .ok (v, (rand.Int r).2)

/-- The closure of a string field (lines 99-101). -/
def stringGenerator (maxAlloc maxLen : Nat) : Generator := fun r =>
  match randBytes maxAlloc maxLen r with
  | .error e => .error e
  | .ok (bs, r1) => .ok (Value.str bs, r1)

/-- The closure of a binData field (lines 108-110). -/
def binDataGenerator (maxAlloc maxLen : Nat) : Generator := fun r =>
  match randBytes maxAlloc maxLen r with
  | .error e => .error e
  | .ok (bs, r1) => .ok (Value.bin bs, r1)

/-- The closure of an object field (lines 139-150). -/
def objectGenerator (properties : GoMap FieldType) (propGenerators : GoMap Generator) :
    Generator := fun r =>
  match genFields propGenerators (mapiter (properties.map Prod.fst) r).1
      (mapiter (properties.map Prod.fst) r).2 with
  | .error e => .error e
  | .ok (props, r1) => .ok (Value.doc props, r1)

/-- The closure of an array field (lines 168-176). -/
def arrayGenerator (maxAlloc : Nat) (nItems : Nat) (generators : List Generator)
    (maxItemsLen : Nat) : Generator := fun r =>
  if makeslice maxAlloc ifaceSize maxItemsLen then
    match arrayLoop generators nItems (toInt maxItemsLen).toNat r with
    | .error e => .error e
    | .ok (items, r1) => .ok (Value.arr items, r1)
  else .error "runtime error: makeslice: cap out of range"

mutual
/-- Function `getFieldGenerator`: compile a field type into a generator, or
fail with an error. -/
def getFieldGenerator (maxAlloc : Nat) : FieldType → Except String Generator
  | .mk bsonType properties enum items maxLength maxItems =>
    if enum.length ≠ 0 then .ok (enumGenerator enum)
    else if bsonType = doubleType then
      .ok (fun r => .ok (rand.Float32 r))
    else if bsonType = stringType then
      .ok (stringGenerator maxAlloc
        (if maxLength ≠ 0 then maxLength else defaultStringMaxLen))
    else if bsonType = binDataType then
      .ok (binDataGenerator maxAlloc
        (if maxLength ≠ 0 then maxLength else defaultBinDataMaxLen))
    else if bsonType = objectIDType then
      .ok (fun r => .ok (primitive.NewObjectID r))
    else if bsonType = boolType then
      .ok (fun r => .ok (Value.bool ((rand.Uint32 r).1 % 2 == 0), (rand.Uint32 r).2))
    else if bsonType = intType then
      .ok (fun r => .ok (Value.int32 ((rand.Int31 r).1 : Nat), (rand.Int31 r).2))
    else if bsonType = longType then
      .ok (fun r => .ok (Value.int64 ((rand.Int63 r).1 : Nat), (rand.Int63 r).2))
    else if bsonType = objectType then
      match propGeneratorsLoop maxAlloc properties [] with
      | .error e => .error e
      | .ok propGenerators => .ok (objectGenerator properties propGenerators)
    else if bsonType = arrayType then
      match itemGeneratorsLoop maxAlloc items with
      | .error e => .error e
      | .ok generators =>
        .ok (arrayGenerator maxAlloc items.length generators
          (if maxItems ≠ 0 then maxItems else defaultArrayItemsMaxLen))
    else .error "unsupported filed type"
/-- The loop at lines 130-137 over the remaining properties, with the map of
generators built so far. -/
def propGeneratorsLoop (maxAlloc : Nat) :
    GoMap FieldType → GoMap Generator → Except String (GoMap Generator)
  | [], acc => .ok acc
  | (name, t) :: rest, acc =>
    match getFieldGenerator maxAlloc t with
    | .error e => .error ("unsupported nested filed " ++ name ++ " type: " ++ e)
    | .ok generate => propGeneratorsLoop maxAlloc rest (mapassign acc name generate)
/-- The loop at lines 154-161 over the remaining item types. -/
def itemGeneratorsLoop (maxAlloc : Nat) : List FieldType → Except String (List Generator)
  | [] => .ok []
  | t :: rest =>
    match getFieldGenerator maxAlloc t with
    | .error e => .error ("unsupported array item type: " ++ e)
    | .ok generate =>
      match itemGeneratorsLoop maxAlloc rest with
      | .error e => .error e
      | .ok generators => .ok (generate :: generators)
end

/-- The loop at lines 58-65 of `GetDocGenerator`. -/
def docGeneratorsLoop (maxAlloc : Nat) :
    GoMap FieldType → GoMap Generator → Except String (GoMap Generator)
  | [], acc => .ok acc
  | (name, t) :: rest, acc =>
    match getFieldGenerator maxAlloc t with
    | .error e => .error ("get field generator: " ++ e)
    | .ok generate => docGeneratorsLoop maxAlloc rest (mapassign acc name generate)

/-- GetDocGenerator returns collection document generation function. -/
def Collection.GetDocGenerator (maxAlloc : Nat) (c : Collection) :
    Except String DocGenerator :=
  match docGeneratorsLoop maxAlloc c.Schema [] with
  | .error e => .error e
  | .ok generators =>
    .ok (fun r => genFields generators (mapiter (c.Schema.map Prod.fst) r).1
      (mapiter (c.Schema.map Prod.fst) r).2)

end schema

/-! ## Package `collection` -/

/-- Result of a call that may return normally with a value, return a Go
`error`, or panic. -/
inductive Outcome (α : Type) where
  | ok (a : α)
  | err (e : String)
  | panic (msg : String)

/-- Requests the program sends to the store. -/
inductive Op where
  | createCollection (name : String)
  | createOne (coll : String) (keys : List (String × Value)) (name : String)
      (unique : Bool) (pfe : List (String × Value))
  | insertMany (coll : String) (docs : List Value)
  | runCommand (cmd : List (String × Value))

/-- The kinds of request of the pipeline. -/
inductive Kind where
  | createCollection | createIndex | insert | validate | reIndex | collStats | other
  deriving DecidableEq, Repr

/-- Kind of a request; an admin command is classified by its first key. -/
def Op.kind : Op → Kind
  | .createCollection _ => .createCollection
  | .createOne _ _ _ _ _ => .createIndex
  | .insertMany _ _ => .insert
  | .runCommand [] => .other
  | .runCommand ((k, _) :: _) =>
    if k = "validate" then .validate
    else if k = "reIndex" then .reIndex
    else if k = "collStats" then .collStats
    else .other

/-- Reply of the store to a request: the error, if any (`Err`), and for an
admin command what `Decode` into a `bson.M` gives. -/
structure SingleResult where
  Err : Option String
  Decode : Except String (GoMap Value)

/-- One request as it happened: the request and whether the store answered
with an error. -/
structure Event where
  op : Op
  failed : Bool

/-- The store (`*mongo.Database`): its reply to a request, given everything
that happened before. -/
abbrev Database := List Event → Op → SingleResult

/-- What a method that talks to the store yields: the requests it issued in
order, its outcome, and the oracle it leaves. -/
structure Run (α : Type) where
  trace : List Event
  out : Outcome α
  rnd : Rand

namespace collection

def statCollectionSize : Nat := 10000

/-- Stat represents collection statistics. -/
structure Stat where
  StorageSize : ℚ
  IndexesSize : GoMap ℚ

/-- Collection represents collection info and document generation function. -/
structure Collection where
  Name : String
  generateDoc : DocGenerator
  schema : GoMap Mgo.schema.FieldType
  indexes : GoMap Mgo.schema.Index

/-- New creates collection from schema. -/
def New (maxAlloc : Nat) (name : String) (schm : Mgo.schema.Collection) :
    Except String Collection :=
  match schm.GetDocGenerator maxAlloc with
  | .error e => .error ("get document generator: " ++ e)
  | .ok generator =>
    .ok { Name := name, generateDoc := generator, schema := schm.Schema,
          indexes := schm.Indexes }

/-- The loop at lines 84-113 of `create` over the remaining indexes. -/
def createIndexes (db : Database) (collName : String) :
    List (String × Mgo.schema.Index) → List Event → Rand → Run Unit
  | [], _, r => ⟨[], .ok (), r⟩
  | (name, index) :: rest, hist, r =>
    let op := Op.createOne collName index.Parts name index.Unique
      (mapiter index.PartialFilterExpression r).1
    match (db hist op).Err with
    | some e =>
      ⟨[⟨op, true⟩], .err ("create index " ++ name ++ ": " ++ e),
        (mapiter index.PartialFilterExpression r).2⟩
    | none =>
      let next := createIndexes db collName rest (hist ++ [⟨op, false⟩])
        (mapiter index.PartialFilterExpression r).2
      ⟨⟨op, false⟩ :: next.trace, next.out, next.rnd⟩

/-- Method `create`: create the collection, then every declared index. -/
def Collection.create (c : Collection) (db : Database) (hist : List Event) (r : Rand) :
    Run Unit :=
  let op := Op.createCollection c.Name
  match (db hist op).Err with
  | some e => ⟨[⟨op, true⟩], .err e, r⟩
  | none =>
    let next := createIndexes db c.Name (mapiter c.indexes r).1 (hist ++ [⟨op, false⟩])
      (mapiter c.indexes r).2
    ⟨⟨op, false⟩ :: next.trace, next.out, next.rnd⟩

/-- The inner loop at lines 122-124 of `fill`: `n` more generated documents. -/
def genBatch (generateDoc : DocGenerator) : Nat → Rand → Except String (List Value × Rand)
  | 0, r => .ok ([], r)
  | n + 1, r =>
    match generateDoc r with
    | .error e => .error e
    | .ok (d, r1) =>
      match genBatch generateDoc n r1 with
      | .error e => .error e
      | .ok (ds, r2) => .ok (Value.doc d :: ds, r2)

/-- The outer loop at lines 119-129 of `fill`: `n` more batches. -/
def fillLoop (c : Collection) (db : Database) : Nat → List Event → Rand → Run Unit
  | 0, _, r => ⟨[], .ok (), r⟩
  | n + 1, hist, r =>
    match genBatch c.generateDoc 1000 r with
    | .error p => ⟨[], .panic p, r⟩
    | .ok (batch, r1) =>
      let op := Op.insertMany c.Name batch
      match (db hist op).Err with
      | some e => ⟨[⟨op, true⟩], .err e, r1⟩
      | none =>
        let next := fillLoop c db n (hist ++ [⟨op, false⟩]) r1
        ⟨⟨op, false⟩ :: next.trace, next.out, next.rnd⟩

/-- Method `fill`: insert `statCollectionSize` documents in batches of 1000. -/
def Collection.fill (c : Collection) (db : Database) (hist : List Event) (r : Rand) :
    Run Unit :=
  fillLoop c db (statCollectionSize / 1000) hist r

/-- Method `collectStat`: validate, reIndex, collStats, decode. -/
def Collection.collectStat (c : Collection) (db : Database) (hist : List Event) :
    List Event × Outcome (GoMap Value) :=
  let validate := Op.runCommand
    [("validate", Value.str c.Name.toList), ("full", Value.bool true)]
  match (db hist validate).Err with
  | some e => ([⟨validate, true⟩], .err ("validate data: " ++ e))
  | none =>
    let reIndex := Op.runCommand [("reIndex", Value.str c.Name.toList)]
    match (db (hist ++ [⟨validate, false⟩]) reIndex).Err with
    | some e => ([⟨validate, false⟩, ⟨reIndex, true⟩], .err ("reindex: " ++ e))
    | none =>
      let collStats := Op.runCommand [("collStats", Value.str c.Name.toList)]
      let res := db (hist ++ [⟨validate, false⟩, ⟨reIndex, false⟩]) collStats
      match res.Err with
      | some e =>
        ([⟨validate, false⟩, ⟨reIndex, false⟩, ⟨collStats, true⟩], .err ("collStats: " ++ e))
      | none =>
        match res.Decode with
        | .error e =>
          ([⟨validate, false⟩, ⟨reIndex, false⟩, ⟨collStats, false⟩],
            .err ("decode stat: " ++ e))
        | .ok stat =>
          ([⟨validate, false⟩, ⟨reIndex, false⟩, ⟨collStats, false⟩], .ok stat)

/-- Type assertion `x.(int32)` on a map element; a missing key is `nil`. -/
def assertInt32 : Option Value → Except String Int
  | some (.int32 v) => .ok v
  | _ => .error "interface conversion: interface {} is not int32"

/-- Type assertion `x.(bson.M)` on a map element; a missing key is `nil`. -/
def assertM : Option Value → Except String (GoMap Value)
  | some (.map m) => .ok m
  | _ => .error "interface conversion: interface {} is not primitive.M"

/-- The loop at lines 72-74 of `Stat` over the remaining index sizes. -/
def indexSizesLoop (scale : ℚ) : List (String × Value) → GoMap ℚ → Except String (GoMap ℚ)
  | [], acc => .ok acc
  | (name, size) :: rest, acc =>
    match assertInt32 (some size) with
    | .error p => .error p
    | .ok v => indexSizesLoop scale rest (mapassign acc name ((v : ℚ) * scale))

/-- Lines 65-76 of `Stat`: scale the raw statistics. -/
def scaleStat (rawStat : GoMap Value) (size : Nat) (r : Rand) : Except String Stat :=
  let scale : ℚ := (size : ℚ) / (statCollectionSize : ℚ)
  match assertInt32 (mapaccess rawStat "storageSize") with
  | .error p => .error p
  | .ok storageSize =>
    match assertM (mapaccess rawStat "indexSizes") with
    | .error p => .error p
    | .ok sizes =>
      match indexSizesLoop scale (mapiter sizes r).1 [] with
      | .error p => .error p
      | .ok indexesSize =>
        .ok { StorageSize := (storageSize : ℚ) * scale, IndexesSize := indexesSize }

/-- Stat gets statistic by filling with generated data mongodb collection.
The result is the list of requests issued, in order, and the outcome. -/
def Collection.Stat (c : Collection) (db : Database) (size : Nat) (hist : List Event)
    (r : Rand) : List Event × Outcome Stat :=
  let a := c.create db hist r
  match a.out with
  | .err e => (a.trace, .err ("create collection: " ++ e))
  | .panic p => (a.trace, .panic p)
  | .ok _ =>
    let b := c.fill db (hist ++ a.trace) a.rnd
    match b.out with
    | .err e => (a.trace ++ b.trace, .err ("fill collection: " ++ e))
    | .panic p => (a.trace ++ b.trace, .panic p)
    | .ok _ =>
      let s := c.collectStat db (hist ++ a.trace ++ b.trace)
      match s.2 with
      | .err e => (a.trace ++ b.trace ++ s.1, .err ("stat collection: " ++ e))
      | .panic p => (a.trace ++ b.trace ++ s.1, .panic p)
      | .ok rawStat =>
        match scaleStat rawStat size b.rnd with
        | .error p => (a.trace ++ b.trace ++ s.1, .panic p)
        | .ok stat => (a.trace ++ b.trace ++ s.1, .ok stat)

end collection

/-! ## Vocabulary of the statements -/

namespace schema

/-- The type tags `getFieldGenerator` dispatches on. -/
def supportedTypes : List String :=
  [objectType, arrayType, doubleType, stringType, binDataType, objectIDType, boolType,
    intType, longType]

/-- The length a string field asks `randBytes` for (lines 94-97). -/
def stringLen (t : FieldType) : Nat :=
  if t.MaxLength ≠ 0 then t.MaxLength else 10

/-- The length a binData field asks `randBytes` for (lines 103-106). -/
def binDataLen (t : FieldType) : Nat :=
  if t.MaxLength ≠ 0 then t.MaxLength else 16

/-- The item count of an array field (lines 163-166). -/
def arrayLen (t : FieldType) : Nat :=
  if t.MaxItems ≠ 0 then t.MaxItems else 1

mutual
/-- A field type every node of which can be generated: each string and
binData length and each array item count is a size `make` accepts, and each
array has at least one item type.  Nodes with an enum are not inspected. -/
def wellShaped (maxAlloc : Nat) : FieldType → Bool
  | .mk b ps e is ml mi =>
    if e.length ≠ 0 then true
    else if b = stringType then
      makeslice maxAlloc 1 (if ml ≠ 0 then ml else defaultStringMaxLen)
    else if b = binDataType then
      makeslice maxAlloc 1 (if ml ≠ 0 then ml else defaultBinDataMaxLen)
    else if b = objectType then wellShapedProps maxAlloc ps
    else if b = arrayType then
      !is.isEmpty &&
        makeslice maxAlloc ifaceSize (if mi ≠ 0 then mi else defaultArrayItemsMaxLen) &&
        wellShapedItems maxAlloc is
    else true
/-- All properties are well shaped. -/
def wellShapedProps (maxAlloc : Nat) : List (String × FieldType) → Bool
  | [] => true
  | (_, t) :: rest => wellShaped maxAlloc t && wellShapedProps maxAlloc rest
/-- All item types are well shaped. -/
def wellShapedItems (maxAlloc : Nat) : List FieldType → Bool
  | [] => true
  | t :: rest => wellShaped maxAlloc t && wellShapedItems maxAlloc rest
end

end schema

/-- A generator that returns a value whatever the oracle. -/
def Total (g : Generator) : Prop := ∀ r : Rand, ∃ v r', g r = .ok (v, r')

/-- A document generator that returns a document whatever the oracle. -/
def TotalDoc (g : DocGenerator) : Prop := ∀ r : Rand, ∃ d r', g r = .ok (d, r')


/-- Kind of the request of an event. -/
def Event.kind (e : Event) : Kind := e.op.kind

/-- The requests of one complete `Stat` pipeline for a collection with `k`
declared indexes, in order. -/
def expectedKinds (k : Nat) : List Kind :=
  Kind.createCollection :: List.replicate k Kind.createIndex ++
    List.replicate 10 Kind.insert ++ [Kind.validate, Kind.reIndex, Kind.collStats]

/-- A stage that stops at the first failed request: its requests are an
initial part of `full`; a failed request makes the outcome an error; a normal
return means all of `full` was issued. -/
def FailFast {α : Type} (full : List Kind) (trace : List Event) (out : Outcome α) : Prop :=
  (trace.map Event.kind <+: full) ∧
  ((∃ e ∈ trace, e.failed = true) → ∃ msg, out = .err msg) ∧
  (∀ a, out = .ok a → trace.map Event.kind = full)

/-- The collection of the end-to-end scenario of the specification:
`{id: objectId, amount: double}`, no indexes, target count 50000. -/
def ordersSchema : schema.Collection :=
  ⟨[("id", .mk "objectId" [] [] [] 0 0), ("amount", .mk "double" [] [] [] 0 0)], [], 50000⟩

/-- A store that answers every request without error and every admin command
with the document `reply`. -/
def replyingStore (reply : GoMap Value) : Database := fun _ _ => ⟨none, .ok reply⟩

/-- The events of a trace record the store's own answers: the flag of each
event is whether the store, having seen `hist` and the events before it,
answered the request with an error. -/
def Faithful (db : Database) : List Event → List Event → Prop
  | _, [] => True
  | hist, e :: rest =>
    e.failed = ((db hist e.op).Err).isSome ∧ Faithful db (hist ++ [e]) rest

/-- Name of the index a createIndex request creates. -/
def Op.indexName : Op → Option String
  | .createOne _ _ name _ _ => some name
  | _ => none

/-- Names of the indexes the createIndex requests of a trace create, in order. -/
def indexNames (trace : List Event) : List String :=
  trace.filterMap fun e => e.op.indexName

/-- A request `Stat` is meant to send for the collection `c`: creation of the
collection under its name; creation of one of its declared indexes, with the
declared key parts and uniqueness flag and the entries of its filter in some
order; insertion of a batch of 1000 documents, each a result of
`c.generateDoc`; or one of the three admin commands on its name. -/
def intendedOp (c : collection.Collection) : Op → Prop
  | .createCollection name => name = c.Name
  | .createOne coll keys name unique pfe =>
    coll = c.Name ∧ ∃ index, (name, index) ∈ c.indexes ∧ keys = index.Parts ∧
      unique = index.Unique ∧ pfe.Perm index.PartialFilterExpression
  | .insertMany coll docs =>
    coll = c.Name ∧ docs.length = 1000 ∧
      ∀ d ∈ docs, ∃ fs r r', d = Value.doc fs ∧ c.generateDoc r = .ok (fs, r')
  | .runCommand cmd =>
    cmd = [("validate", Value.str c.Name.toList), ("full", Value.bool true)] ∨
    cmd = [("reIndex", Value.str c.Name.toList)] ∨
    cmd = [("collStats", Value.str c.Name.toList)]

/-- A schema with one field and one unique index, for the runs below. -/
def usersSchema : schema.Collection :=
  ⟨[("name", .mk "string" [] [] [] 8 0)],
    [("by_name", ⟨[("name", Value.int32 1)], true, []⟩)], 20000⟩

/-- A store that refuses every index creation and accepts everything else. -/
def noIndexStore : Database := fun _ op =>
  match op with
  | .createOne _ _ _ _ _ => ⟨some "index build failed", .ok []⟩
  | _ => ⟨none, .ok []⟩

/-! ## Theorems: the field generator compiler -/

namespace schema

theorem getFieldGenerator_mk (maxAlloc : Nat) (b : String) (ps : GoMap FieldType)
    (e : List Value) (is : List FieldType) (ml mi : Nat) :
    getFieldGenerator maxAlloc (.mk b ps e is ml mi) =
      if e.length ≠ 0 then .ok (enumGenerator e)
      else if b = doubleType then .ok (fun r => .ok (rand.Float32 r))
      else if b = stringType then
        .ok (stringGenerator maxAlloc (if ml ≠ 0 then ml else defaultStringMaxLen))
      else if b = binDataType then
        .ok (binDataGenerator maxAlloc (if ml ≠ 0 then ml else defaultBinDataMaxLen))
      else if b = objectIDType then .ok (fun r => .ok (primitive.NewObjectID r))
      else if b = boolType then
        .ok (fun r => .ok (Value.bool ((rand.Uint32 r).1 % 2 == 0), (rand.Uint32 r).2))
      else if b = intType then
        .ok (fun r => .ok (Value.int32 ((rand.Int31 r).1 : Nat), (rand.Int31 r).2))
      else if b = longType then
        .ok (fun r => .ok (Value.int64 ((rand.Int63 r).1 : Nat), (rand.Int63 r).2))
      else if b = objectType then
        match propGeneratorsLoop maxAlloc ps [] with
        | .error e => .error e
        | .ok propGenerators => .ok (objectGenerator ps propGenerators)
      else if b = arrayType then
        match itemGeneratorsLoop maxAlloc is with
        | .error e => .error e
        | .ok generators =>
          .ok (arrayGenerator maxAlloc is.length generators
            (if mi ≠ 0 then mi else defaultArrayItemsMaxLen))
      else .error "unsupported filed type" := by
  rw [getFieldGenerator]

theorem propGeneratorsLoop_error_iff (maxAlloc : Nat) (ps : GoMap FieldType)
    (acc : GoMap Generator) :
    (∃ e, propGeneratorsLoop maxAlloc ps acc = .error e) ↔
      ∃ p ∈ ps, ∃ e, getFieldGenerator maxAlloc p.2 = .error e := by
  induction ps generalizing acc with
  | nil => simp [propGeneratorsLoop]
  | cons p rest ih =>
    obtain ⟨name, t⟩ := p
    rw [propGeneratorsLoop]
    cases h : getFieldGenerator maxAlloc t with
    | error e => simp [h]
    | ok g => simp [h, ih]

theorem itemGeneratorsLoop_error_iff (maxAlloc : Nat) (is : List FieldType) :
    (∃ e, itemGeneratorsLoop maxAlloc is = .error e) ↔
      ∃ i ∈ is, ∃ e, getFieldGenerator maxAlloc i = .error e := by
  induction is with
  | nil => simp [itemGeneratorsLoop]
  | cons t rest ih =>
    rw [itemGeneratorsLoop]
    cases h : getFieldGenerator maxAlloc t with
    | error e => simp [h]
    | ok g =>
      cases h2 : itemGeneratorsLoop maxAlloc rest with
      | error e => 
        have := ih.mp (by simp [h2])
        simp [h, this]
      | ok gs =>
        have : ¬ ∃ i ∈ rest, ∃ e, getFieldGenerator maxAlloc i = .error e := by
          rw [← ih]; simp [h2]
        simp [h]
        simpa using this

theorem docGeneratorsLoop_error_iff (maxAlloc : Nat) (ps : GoMap FieldType)
    (acc : GoMap Generator) :
    (∃ e, docGeneratorsLoop maxAlloc ps acc = .error e) ↔
      ∃ p ∈ ps, ∃ e, getFieldGenerator maxAlloc p.2 = .error e := by
  induction ps generalizing acc with
  | nil => simp [docGeneratorsLoop]
  | cons p rest ih =>
    obtain ⟨name, t⟩ := p
    rw [docGeneratorsLoop]
    cases h : getFieldGenerator maxAlloc t with
    | error e => simp [h]
    | ok g => simp [h, ih]

theorem getFieldGenerator_error_iff_aux (maxAlloc : Nat) (t : FieldType) :
    (∃ e, getFieldGenerator maxAlloc t = .error e) ↔
      (t.Enum = [] ∧
        (t.BsonType ∉ supportedTypes ∨
          (t.BsonType = objectType ∧
            ∃ p ∈ t.Properties, ∃ e, getFieldGenerator maxAlloc p.2 = .error e) ∨
          (t.BsonType = arrayType ∧
            ∃ i ∈ t.Items, ∃ e, getFieldGenerator maxAlloc i = .error e))) := by
  obtain ⟨b, ps, e, is, ml, mi⟩ := t
  rw [getFieldGenerator_mk]
  simp only [FieldType.Enum, FieldType.BsonType, FieldType.Properties, FieldType.Items]
  by_cases he : e = []
  · subst he
    simp only [List.length_nil, ne_eq, not_true_eq_false, if_false, true_and]
    by_cases h1 : b = doubleType
    · subst h1; simp [supportedTypes, doubleType, objectType, arrayType]
    by_cases h2 : b = stringType
    · subst h2; simp [supportedTypes, stringType, doubleType, objectType, arrayType]
    by_cases h3 : b = binDataType
    · subst h3; simp [supportedTypes, binDataType, stringType, doubleType, objectType, arrayType]
    by_cases h4 : b = objectIDType
    · subst h4
      simp [supportedTypes, objectIDType, binDataType, stringType, doubleType, objectType,
        arrayType]
    by_cases h5 : b = boolType
    · subst h5
      simp [supportedTypes, boolType, objectIDType, binDataType, stringType, doubleType,
        objectType, arrayType]
    by_cases h6 : b = intType
    · subst h6
      simp [supportedTypes, intType, boolType, objectIDType, binDataType, stringType,
        doubleType, objectType, arrayType]
    by_cases h7 : b = longType
    · subst h7
      simp [supportedTypes, longType, intType, boolType, objectIDType, binDataType,
        stringType, doubleType, objectType, arrayType]
    by_cases h8 : b = objectType
    · subst h8
      have hne : objectType ≠ arrayType := by decide
      simp only [if_neg h1, if_neg h2, if_neg h3, if_neg h4, if_neg h5, if_neg h6, if_neg h7,
        if_true, hne, false_and, or_false, true_and]
      have hin : objectType ∈ supportedTypes := by simp [supportedTypes]
      simp only [hin, not_true_eq_false, false_or]
      rw [← propGeneratorsLoop_error_iff maxAlloc ps []]
      cases propGeneratorsLoop maxAlloc ps [] <;> simp
    by_cases h9 : b = arrayType
    · subst h9
      simp only [if_neg h1, if_neg h2, if_neg h3, if_neg h4, if_neg h5, if_neg h6, if_neg h7,
        if_neg h8, if_true, h8, false_and, false_or, true_and]
      have hin : arrayType ∈ supportedTypes := by simp [supportedTypes]
      simp only [hin, not_true_eq_false, false_or]
      rw [← itemGeneratorsLoop_error_iff maxAlloc is]
      cases itemGeneratorsLoop maxAlloc is <;> simp
    · have hnot : b ∉ supportedTypes := by
        simp [supportedTypes, h1, h2, h3, h4, h5, h6, h7, h8, h9]
      simp [h1, h2, h3, h4, h5, h6, h7, h8, h9, hnot]
  · have hl : e.length ≠ 0 := by
      intro h; exact he (List.length_eq_zero.mp h)
    simp [hl, he]

end schema

open schema

/-- C2. `getFieldGenerator` returns an error exactly when the enum is empty
and the type tag is none of the nine supported ones, or the type is an object
one of whose properties fails to compile, or an array one of whose items
fails to compile.  Consequently a collection schema with a field of type
"unknown" and no enum makes `GetDocGenerator` and `collection.New` return an
error (and so no generator and no `Collection`). -/
theorem getFieldGenerator_fails_exactly_on_unsupported (maxAlloc : Nat) :
    (∀ t : schema.FieldType,
      (∃ e, schema.getFieldGenerator maxAlloc t = .error e) ↔
        (t.Enum = [] ∧
          (t.BsonType ∉ schema.supportedTypes ∨
            (t.BsonType = schema.objectType ∧
              ∃ p ∈ t.Properties, ∃ e, schema.getFieldGenerator maxAlloc p.2 = .error e) ∨
            (t.BsonType = schema.arrayType ∧
              ∃ i ∈ t.Items, ∃ e, schema.getFieldGenerator maxAlloc i = .error e)))) ∧
    (∀ (name : String) (c : schema.Collection) (field : String × schema.FieldType),
      field ∈ c.Schema → field.2.BsonType = "unknown" → field.2.Enum = [] →
        (∃ e, c.GetDocGenerator maxAlloc = .error e) ∧
        (∃ e, collection.New maxAlloc name c = .error e)) := by
  refine ⟨schema.getFieldGenerator_error_iff_aux maxAlloc, ?_⟩
  intro name c field hmem hty henum
  have hfail : ∃ e, schema.getFieldGenerator maxAlloc field.2 = .error e := by
    rw [schema.getFieldGenerator_error_iff_aux]
    refine ⟨henum, Or.inl ?_⟩
    rw [hty]; decide
  have hloop : ∃ e, schema.docGeneratorsLoop maxAlloc c.Schema [] = .error e :=
    (schema.docGeneratorsLoop_error_iff maxAlloc c.Schema []).mpr ⟨field, hmem, hfail⟩
  obtain ⟨e, he⟩ := hloop
  have hdoc : c.GetDocGenerator maxAlloc = .error e := by
    simp [schema.Collection.GetDocGenerator, he]
  exact ⟨⟨e, hdoc⟩, ⟨"get document generator: " ++ e, by simp [collection.New, hdoc]⟩⟩

/-- Witness for C2 at a schema whose only field has type "unknown". -/
theorem getFieldGenerator_fails_exactly_on_unsupported_witness :
    (∃ e, schema.getFieldGenerator 0 (.mk "unknown" [] [] [] 0 0) = .error e) ∧
    (∃ e, collection.New 0 "orders"
      ⟨[("id", .mk "unknown" [] [] [] 0 0)], [], 50000⟩ = .error e) :=
  ⟨((getFieldGenerator_fails_exactly_on_unsupported 0).1 _).mpr
      ⟨rfl, Or.inl (by decide)⟩,
    ((getFieldGenerator_fails_exactly_on_unsupported 0).2 "orders"
      ⟨[("id", .mk "unknown" [] [] [] 0 0)], [], 50000⟩
      ("id", .mk "unknown" [] [] [] 0 0) (by simp) rfl rfl).2⟩

theorem goMod_ok (a b : Nat) (h : b ≠ 0) : goMod a b = .ok (a % b) := by
  simp [goMod, h]

theorem goIndex_ok {α : Type} (l : List α) (i : Nat) (h : i < l.length) :
    goIndex l i = .ok (l.get ⟨i, h⟩) := by
  simp [goIndex, List.getElem?_eq_getElem h]

theorem enumGenerator_ok (enum : List Value) (h : enum ≠ []) (r : Rand) :
    ∃ v, enumGenerator enum r = .ok (v, r.tail) ∧ v ∈ enum := by
  have hl : enum.length ≠ 0 := fun h0 => h (List.length_eq_zero.mp h0)
  have hlt : (rand.Int r).1 % enum.length < enum.length := Nat.mod_lt _ (Nat.pos_of_ne_zero hl)
  refine ⟨enum.get ⟨_, hlt⟩, ?_, List.get_mem _ _ _⟩
  simp only [enumGenerator, goMod_ok _ _ hl, goIndex_ok _ _ hlt]
  rfl

/-- C3. Enum always wins: a field type with a non-empty enum compiles,
whatever its type tag, properties, items, maxLength and maxItems; the index
`rand.Int() % len(enum)` is always a valid position; and on every oracle the
generator returns a value, which is an element of the enum. -/
theorem enum_always_wins (maxAlloc : Nat) (t : FieldType) (h : t.Enum ≠ []) :
    ∃ g, getFieldGenerator maxAlloc t = .ok g ∧
      ∀ r : Rand, (rand.Int r).1 % t.Enum.length < t.Enum.length ∧
        ∃ v r', g r = .ok (v, r') ∧ v ∈ t.Enum := by
  obtain ⟨b, ps, e, is, ml, mi⟩ := t
  simp only [FieldType.Enum] at h ⊢
  have hl : e.length ≠ 0 := fun h0 => h (List.length_eq_zero.mp h0)
  refine ⟨enumGenerator e, by rw [getFieldGenerator_mk]; simp [hl], fun r => ⟨?_, ?_⟩⟩
  · exact Nat.mod_lt _ (Nat.pos_of_ne_zero hl)
  · obtain ⟨v, hv, hm⟩ := enumGenerator_ok e h r
    exact ⟨v, _, hv, hm⟩

/-- Witness for C3: a two-element enum under the unsupported tag "unknown". -/
theorem enum_always_wins_witness :
    ∃ g, getFieldGenerator 0 (.mk "unknown" [] [Value.null, Value.bool true] [] 0 0) = .ok g ∧
      ∀ r : Rand, (rand.Int r).1 % 2 < 2 ∧
        ∃ v r', g r = .ok (v, r') ∧ v ∈ [Value.null, Value.bool true] :=
  enum_always_wins 0 (.mk "unknown" [] [Value.null, Value.bool true] [] 0 0) (by simp [FieldType.Enum])

theorem randBytesLoop_ok (n : Nat) (r : Rand) :
    ∃ bs r', randBytesLoop n r = .ok (bs, r') ∧ bs.length = n := by
  induction n generalizing r with
  | zero => exact ⟨[], r, rfl, rfl⟩
  | succ n ih =>
    have hpos : charset.length ≠ 0 := by decide
    have hlt : r 0 % charset.length < charset.length :=
      Nat.mod_lt _ (Nat.pos_of_ne_zero hpos)
    obtain ⟨bs, r', hbs, hlen⟩ := ih r.tail
    refine ⟨charset.get ⟨_, hlt⟩ :: bs, r', ?_, by simp [hlen]⟩
    rw [randBytesLoop]
    simp only [rand.Intn, if_neg hpos, goIndex_ok _ _ hlt, hbs]

theorem randBytes_ok (maxAlloc n : Nat) (h : makeslice maxAlloc 1 n = true) (r : Rand) :
    ∃ bs r', randBytes maxAlloc n r = .ok (bs, r') ∧ bs.length = n := by
  simp only [randBytes, h, if_true]
  exact randBytesLoop_ok n r

theorem randBytes_panic (maxAlloc n : Nat) (h : makeslice maxAlloc 1 n = false) (r : Rand) :
    randBytes maxAlloc n r = .error "runtime error: makeslice: len out of range" := by
  simp [randBytes, h]

/-- C4 (amended). For a field with empty enum and type string, with n =
maxLength when that is non-zero and n = 10 otherwise: the field compiles;
every value its generator returns is a string of exactly n bytes; the
generator returns on every oracle when n is a size `make` accepts, and panics
on every oracle otherwise.  The same holds for type binData with byte
sequences and n = maxLength or 16. -/
theorem string_binData_length (maxAlloc : Nat) (t : FieldType) (henum : t.Enum = []) :
    (t.BsonType = stringType →
      ∃ g, getFieldGenerator maxAlloc t = .ok g ∧
        (∀ r v r', g r = .ok (v, r') → ∃ s, v = Value.str s ∧ s.length = stringLen t) ∧
        (makeslice maxAlloc 1 (stringLen t) = true →
          ∀ r : Rand, ∃ s r', g r = .ok (Value.str s, r') ∧ s.length = stringLen t) ∧
        (makeslice maxAlloc 1 (stringLen t) = false →
          ∀ r : Rand, g r = .error "runtime error: makeslice: len out of range")) ∧
    (t.BsonType = binDataType →
      ∃ g, getFieldGenerator maxAlloc t = .ok g ∧
        (∀ r v r', g r = .ok (v, r') → ∃ b, v = Value.bin b ∧ b.length = binDataLen t) ∧
        (makeslice maxAlloc 1 (binDataLen t) = true →
          ∀ r : Rand, ∃ b r', g r = .ok (Value.bin b, r') ∧ b.length = binDataLen t) ∧
        (makeslice maxAlloc 1 (binDataLen t) = false →
          ∀ r : Rand, g r = .error "runtime error: makeslice: len out of range")) := by
  obtain ⟨b, ps, e, is, ml, mi⟩ := t
  simp only [FieldType.Enum, FieldType.BsonType, stringLen, binDataLen,
    FieldType.MaxLength] at henum ⊢
  subst henum
  constructor
  · intro hb
    subst hb
    have key : ∀ r : Rand, makeslice maxAlloc 1 (if ml ≠ 0 then ml else 10) = true →
        ∃ s r', stringGenerator maxAlloc (if ml ≠ 0 then ml else 10) r =
          .ok (Value.str s, r') ∧ s.length = if ml ≠ 0 then ml else 10 := by
      intro r hm
      obtain ⟨bs, r', h1, h2⟩ := randBytes_ok maxAlloc _ hm r
      exact ⟨bs, r', by simp only [stringGenerator, h1], h2⟩
    refine ⟨stringGenerator maxAlloc (if ml ≠ 0 then ml else 10), ?_, ?_,
      fun hm r => key r hm, ?_⟩
    · rw [getFieldGenerator_mk]; simp [stringType, doubleType, defaultStringMaxLen]
    · intro r v r' hr
      cases hm : makeslice maxAlloc 1 (if ml ≠ 0 then ml else 10) with
      | true =>
        obtain ⟨s, r2, h1, h2⟩ := key r hm
        rw [h1] at hr
        simp only [Except.ok.injEq, Prod.mk.injEq] at hr
        exact ⟨s, hr.1.symm, h2⟩
      | false =>
        simp only [stringGenerator, randBytes_panic _ _ hm] at hr
        cases hr
    · intro hm r
      simp only [stringGenerator, randBytes_panic _ _ hm]
  · intro hb
    subst hb
    have key : ∀ r : Rand, makeslice maxAlloc 1 (if ml ≠ 0 then ml else 16) = true →
        ∃ s r', binDataGenerator maxAlloc (if ml ≠ 0 then ml else 16) r =
          .ok (Value.bin s, r') ∧ s.length = if ml ≠ 0 then ml else 16 := by
      intro r hm
      obtain ⟨bs, r', h1, h2⟩ := randBytes_ok maxAlloc _ hm r
      exact ⟨bs, r', by simp only [binDataGenerator, h1], h2⟩
    refine ⟨binDataGenerator maxAlloc (if ml ≠ 0 then ml else 16), ?_, ?_,
      fun hm r => key r hm, ?_⟩
    · rw [getFieldGenerator_mk]
      simp [stringType, doubleType, binDataType, defaultBinDataMaxLen]
    · intro r v r' hr
      cases hm : makeslice maxAlloc 1 (if ml ≠ 0 then ml else 16) with
      | true =>
        obtain ⟨s, r2, h1, h2⟩ := key r hm
        rw [h1] at hr
        simp only [Except.ok.injEq, Prod.mk.injEq] at hr
        exact ⟨s, hr.1.symm, h2⟩
      | false =>
        simp only [binDataGenerator, randBytes_panic _ _ hm] at hr
        cases hr
    · intro hm r
      simp only [binDataGenerator, randBytes_panic _ _ hm]

/-- Witness for C4: a string with the default length and a binData of 40 bytes. -/
theorem string_binData_length_witness :
    (∃ g, getFieldGenerator 64 (.mk "string" [] [] [] 0 0) = .ok g ∧
        ∀ r : Rand, ∃ s r', g r = .ok (Value.str s, r') ∧ s.length = 10) ∧
    (∃ g, getFieldGenerator 64 (.mk "binData" [] [] [] 40 0) = .ok g ∧
        ∀ r : Rand, ∃ b r', g r = .ok (Value.bin b, r') ∧ b.length = 40) := by
  obtain ⟨g, hg, _, h2, _⟩ :=
    (string_binData_length 64 (.mk "string" [] [] [] 0 0) rfl).1 rfl
  obtain ⟨g', hg', _, h2', _⟩ :=
    (string_binData_length 64 (.mk "binData" [] [] [] 40 0) rfl).2 rfl
  exact ⟨⟨g, hg, h2 (by decide)⟩, ⟨g', hg', h2' (by decide)⟩⟩

/-- C4 as stated fails: a string field with maxLength 2^63 (a valid uint64)
compiles, and every invocation of its generator panics inside `randBytes`,
whatever the platform's allocation limit; no string of 2^63 bytes is produced. -/
theorem string_length_counterexample :
    (FieldType.mk "string" [] [] [] (2 ^ 63) 0).Enum = [] ∧
    (FieldType.mk "string" [] [] [] (2 ^ 63) 0).MaxLength < 2 ^ 64 ∧
    ∀ (maxAlloc : Nat) (r : Rand), ∃ g,
      getFieldGenerator maxAlloc (.mk "string" [] [] [] (2 ^ 63) 0) = .ok g ∧
      g r = .error "runtime error: makeslice: len out of range" := by
  refine ⟨rfl, by simp [FieldType.MaxLength], fun maxAlloc r => ⟨stringGenerator maxAlloc (2 ^ 63), ?_, ?_⟩⟩
  · rw [getFieldGenerator_mk]; simp [stringType, doubleType]
  · have : makeslice maxAlloc 1 (2 ^ 63) = false := by simp [makeslice]
    simp only [stringGenerator, randBytes_panic _ _ this]

/-- C9 (amended). For a field with empty enum and type int the generator
always returns an int32, and the values it can return are exactly the integers
v with 0 <= v <= 2^31 - 1; for type long it always returns an int64, and the
values it can return are exactly the v with 0 <= v <= 2^63 - 1. -/
theorem int_long_range (maxAlloc : Nat) (t : FieldType) (henum : t.Enum = []) :
    (t.BsonType = intType →
      ∃ g, getFieldGenerator maxAlloc t = .ok g ∧
        (∀ r : Rand, ∃ (n : Nat) (r' : Rand), g r = .ok (Value.int32 n, r')) ∧
        ∀ v : Int, (∃ r r', g r = .ok (Value.int32 v, r')) ↔ (0 ≤ v ∧ v ≤ 2 ^ 31 - 1)) ∧
    (t.BsonType = longType →
      ∃ g, getFieldGenerator maxAlloc t = .ok g ∧
        (∀ r : Rand, ∃ (n : Nat) (r' : Rand), g r = .ok (Value.int64 n, r')) ∧
        ∀ v : Int, (∃ r r', g r = .ok (Value.int64 v, r')) ↔ (0 ≤ v ∧ v ≤ 2 ^ 63 - 1)) := by
  obtain ⟨b, ps, e, is, ml, mi⟩ := t
  simp only [FieldType.Enum, FieldType.BsonType] at henum ⊢
  subst henum
  constructor
  · intro hb
    subst hb
    refine ⟨fun r => .ok (Value.int32 ((rand.Int31 r).1 : Nat), (rand.Int31 r).2), ?_,
      fun r => ⟨_, _, rfl⟩, fun v => ⟨?_, ?_⟩⟩
    · rw [getFieldGenerator_mk]
      simp [stringType, doubleType, binDataType, objectIDType, boolType, intType]
    · rintro ⟨r, r', h⟩
      simp only [Except.ok.injEq, Prod.mk.injEq, Value.int32.injEq, rand.Int31] at h
      have := Nat.mod_lt (r 0) (show 0 < 2 ^ 31 by norm_num)
      omega
    · rintro ⟨h0, h1⟩
      refine ⟨fun _ => v.toNat, Rand.tail (fun _ => v.toNat), ?_⟩
      simp only [rand.Int31, Except.ok.injEq, Prod.mk.injEq, Value.int32.injEq, and_true]
      have : v.toNat % 2 ^ 31 = v.toNat := Nat.mod_eq_of_lt (by omega)
      rw [this]; omega
  · intro hb
    subst hb
    refine ⟨fun r => .ok (Value.int64 ((rand.Int63 r).1 : Nat), (rand.Int63 r).2), ?_,
      fun r => ⟨_, _, rfl⟩, fun v => ⟨?_, ?_⟩⟩
    · rw [getFieldGenerator_mk]
      simp [stringType, doubleType, binDataType, objectIDType, boolType, intType, longType]
    · rintro ⟨r, r', h⟩
      simp only [Except.ok.injEq, Prod.mk.injEq, Value.int64.injEq, rand.Int63] at h
      have := Nat.mod_lt (r 0) (show 0 < 2 ^ 63 by norm_num)
      omega
    · rintro ⟨h0, h1⟩
      refine ⟨fun _ => v.toNat, Rand.tail (fun _ => v.toNat), ?_⟩
      simp only [rand.Int63, Except.ok.injEq, Prod.mk.injEq, Value.int64.injEq, and_true]
      have : v.toNat % 2 ^ 63 = v.toNat := Nat.mod_eq_of_lt (by omega)
      rw [this]; omega

/-- Witness for C9: an int field. -/
theorem int_long_range_witness :
    ∃ g, getFieldGenerator 0 (.mk "int" [] [] [] 0 0) = .ok g ∧
        (∀ r : Rand, ∃ (n : Nat) (r' : Rand), g r = .ok (Value.int32 n, r')) ∧
        ∀ v : Int, (∃ r r', g r = .ok (Value.int32 v, r')) ↔ (0 ≤ v ∧ v ≤ 2 ^ 31 - 1) :=
  (int_long_range 0 (.mk "int" [] [] [] 0 0) rfl).1 rfl

/-- C9 as stated fails: the generator of an int field never returns -1. -/
theorem int_range_counterexample :
    ∃ g, getFieldGenerator 0 (.mk "int" [] [] [] 0 0) = .ok g ∧
      ¬ ∃ r r', g r = .ok (Value.int32 (-1), r') := by
  refine ⟨fun r => .ok (Value.int32 ((rand.Int31 r).1 : Nat), (rand.Int31 r).2), rfl, ?_⟩
  rintro ⟨r, r', h⟩
  simp only [Except.ok.injEq, Prod.mk.injEq, Value.int32.injEq] at h
  omega

/-! ## Theorems: maps, iteration order, and the generator loops -/

theorem mapaccess_mapassign {α : Type} (m : GoMap α) (k : String) (v : α) (key : String) :
    mapaccess (mapassign m k v) key = if k = key then some v else mapaccess m key := by
  induction m with
  | nil => simp [mapassign, mapaccess]
  | cons p rest ih =>
    obtain ⟨k', v'⟩ := p
    simp only [mapassign]
    by_cases h : k' = k
    · subst h
      simp only [if_true, mapaccess]
      by_cases h2 : k' = key <;> simp [h2]
    · simp only [if_neg h, mapaccess, ih]
      by_cases h2 : k' = key
      · subst h2
        simp [Ne.symm h]
      · simp [h2]

theorem mapiterAux_perm {α : Type} (n : Nat) (l : List α) (r : Rand) (h : l.length = n) :
    (mapiterAux n l r).1.Perm l := by
  induction n generalizing l r with
  | zero =>
    have : l = [] := List.length_eq_zero.mp h
    subst this
    simp [mapiterAux]
  | succ n ih =>
    have hpos : 0 < l.length := by omega
    have hlt : r 0 % l.length < l.length := Nat.mod_lt _ hpos
    rw [mapiterAux]
    cases hd : l.drop (r 0 % l.length) with
    | nil =>
      have := List.length_drop (r 0 % l.length) l
      rw [hd] at this
      simp at this
      omega
    | cons x tl =>
      have hsplit : l = l.take (r 0 % l.length) ++ x :: tl := by
        rw [← hd, List.take_append_drop]
      have hlen : (l.take (r 0 % l.length) ++ tl).length = n := by
        have h2 := congrArg List.length hsplit
        simp only [List.length_append, List.length_cons] at h2 ⊢
        omega
      have hrec := ih (l.take (r 0 % l.length) ++ tl) r.tail hlen
      simp only
      calc x :: (mapiterAux n (l.take (r 0 % l.length) ++ tl) r.tail).1
          |>.Perm (x :: (l.take (r 0 % l.length) ++ tl)) := List.Perm.cons x hrec
        _ |>.Perm (l.take (r 0 % l.length) ++ x :: tl) := List.perm_middle.symm
        _ = l := hsplit.symm

theorem mapiter_perm {α : Type} (l : List α) (r : Rand) : (mapiter l r).1.Perm l :=
  mapiterAux_perm l.length l r rfl

theorem toInt_toNat (n : Nat) (h : n < 2 ^ 63) : (toInt n).toNat = n := by
  have h1 : n % 2 ^ 64 = n := Nat.mod_eq_of_lt (by omega)
  unfold toInt
  rw [h1, if_pos h]
  exact Int.toNat_ofNat n

theorem makeslice_lt (maxAlloc elemSize n : Nat) (h : makeslice maxAlloc elemSize n = true) :
    n < 2 ^ 63 := by
  simp only [makeslice, Bool.and_eq_true, decide_eq_true_eq] at h
  exact h.1

theorem goIndex_mem {α : Type} (l : List α) (i : Nat) (x : α) (h : goIndex l i = .ok x) :
    x ∈ l := by
  unfold goIndex at h
  split at h
  · rename_i y hy
    simp only [Except.ok.injEq] at h
    subst h
    exact List.get?_mem hy
  · simp at h

theorem genFields_keys (gens : GoMap Generator) (names : List String) (r : Rand)
    (fs : List (String × Value)) (r' : Rand) (h : genFields gens names r = .ok (fs, r')) :
    fs.map Prod.fst = names := by
  induction names generalizing r fs r' with
  | nil =>
    simp only [genFields, Except.ok.injEq, Prod.mk.injEq] at h
    rw [← h.1]; rfl
  | cons name rest ih =>
    rw [genFields] at h
    cases hg : mapaccess gens name with
    | none => simp [hg] at h
    | some g =>
      simp only [hg] at h
      cases hr : g r with
      | error e => simp [hr] at h
      | ok p =>
        obtain ⟨v, r1⟩ := p
        simp only [hr] at h
        cases hrest : genFields gens rest r1 with
        | error e => simp [hrest] at h
        | ok q =>
          obtain ⟨fs2, r2⟩ := q
          simp only [hrest, Except.ok.injEq, Prod.mk.injEq] at h
          rw [← h.1]
          simp [ih r1 fs2 r2 hrest]

theorem genFields_total (gens : GoMap Generator) (names : List String)
    (h : ∀ name ∈ names, ∃ g, mapaccess gens name = some g ∧ Total g) (r : Rand) :
    ∃ fs r', genFields gens names r = .ok (fs, r') := by
  induction names generalizing r with
  | nil => exact ⟨[], r, rfl⟩
  | cons name rest ih =>
    obtain ⟨g, hg, ht⟩ := h name (List.mem_cons_self _ _)
    obtain ⟨v, r1, hv⟩ := ht r
    obtain ⟨fs, r2, hfs⟩ := ih (fun n hn => h n (List.mem_cons_of_mem _ hn)) r1
    exact ⟨(name, v) :: fs, r2, by rw [genFields]; simp only [hg, hv, hfs]⟩

theorem arrayLoop_spec (gens : List Generator) (n k : Nat) (r : Rand) (vs : List Value)
    (r' : Rand) (h : arrayLoop gens n k r = .ok (vs, r')) :
    vs.length = k ∧ ∀ v ∈ vs, ∃ g ∈ gens, ∃ r1 r2, g r1 = .ok (v, r2) := by
  induction k generalizing r vs r' with
  | zero =>
    simp only [arrayLoop, Except.ok.injEq, Prod.mk.injEq] at h
    rw [← h.1]; simp
  | succ k ih =>
    rw [arrayLoop] at h
    cases hm : goMod (rand.Int r).1 n with
    | error e => simp [hm] at h
    | ok i =>
      simp only [hm] at h
      cases hi : goIndex gens i with
      | error e => simp [hi] at h
      | ok g =>
        simp only [hi] at h
        have hmem : g ∈ gens := goIndex_mem gens i g hi
        cases hr : g (rand.Int r).2 with
        | error e => simp [hr] at h
        | ok p =>
          obtain ⟨v, r1⟩ := p
          simp only [hr] at h
          cases hrest : arrayLoop gens n k r1 with
          | error e => simp [hrest] at h
          | ok q =>
            obtain ⟨vs2, r2⟩ := q
            simp only [hrest, Except.ok.injEq, Prod.mk.injEq] at h
            obtain ⟨hl, hall⟩ := ih r1 vs2 r2 hrest
            rw [← h.1]
            refine ⟨by simp [hl], ?_⟩
            intro w hw
            rcases List.mem_cons.mp hw with rfl | hw
            · exact ⟨g, hmem, _, _, hr⟩
            · exact hall w hw

theorem arrayLoop_total (gens : List Generator) (n : Nat) (hn : n ≠ 0)
    (hlen : gens.length = n) (ht : ∀ g ∈ gens, Total g) (k : Nat) (r : Rand) :
    ∃ vs r', arrayLoop gens n k r = .ok (vs, r') := by
  induction k generalizing r with
  | zero => exact ⟨[], r, rfl⟩
  | succ k ih =>
    have hlt : (rand.Int r).1 % n < gens.length := by
      rw [hlen]; exact Nat.mod_lt _ (Nat.pos_of_ne_zero hn)
    obtain ⟨v, r1, hv⟩ := ht _ (List.get_mem gens _ hlt) (rand.Int r).2
    obtain ⟨vs, r2, hvs⟩ := ih r1
    refine ⟨v :: vs, r2, ?_⟩
    rw [arrayLoop]
    simp only [goMod_ok _ _ hn, goIndex_ok _ _ hlt, hv, hvs]

theorem itemGeneratorsLoop_spec (maxAlloc : Nat) (is : List FieldType) (gens : List Generator)
    (h : itemGeneratorsLoop maxAlloc is = .ok gens) :
    gens.length = is.length ∧
      ∀ g ∈ gens, ∃ t ∈ is, getFieldGenerator maxAlloc t = .ok g := by
  induction is generalizing gens with
  | nil =>
    simp only [itemGeneratorsLoop, Except.ok.injEq] at h
    subst h; simp
  | cons t rest ih =>
    rw [itemGeneratorsLoop] at h
    cases hg : getFieldGenerator maxAlloc t with
    | error e => simp [hg] at h
    | ok g =>
      simp only [hg] at h
      cases hrest : itemGeneratorsLoop maxAlloc rest with
      | error e => simp [hrest] at h
      | ok gs =>
        simp only [hrest, Except.ok.injEq] at h
        subst h
        obtain ⟨hl, hall⟩ := ih gs hrest
        refine ⟨by simp [hl], ?_⟩
        intro g' hg'
        rcases List.mem_cons.mp hg' with rfl | hg'
        · exact ⟨t, List.mem_cons_self _ _, hg⟩
        · obtain ⟨t', ht', hc⟩ := hall g' hg'
          exact ⟨t', List.mem_cons_of_mem _ ht', hc⟩

theorem propGeneratorsLoop_spec (maxAlloc : Nat) (ps : GoMap FieldType)
    (acc gens : GoMap Generator) (h : propGeneratorsLoop maxAlloc ps acc = .ok gens) :
    (∀ name g, mapaccess gens name = some g →
      mapaccess acc name = some g ∨
        ∃ t, (name, t) ∈ ps ∧ getFieldGenerator maxAlloc t = .ok g) ∧
    (∀ name, (name ∈ ps.map Prod.fst ∨ (mapaccess acc name).isSome) →
      (mapaccess gens name).isSome) := by
  induction ps generalizing acc with
  | nil =>
    simp only [propGeneratorsLoop, Except.ok.injEq] at h
    subst h
    exact ⟨fun name g hg => Or.inl hg, fun name hn => by simpa using hn⟩
  | cons p rest ih =>
    obtain ⟨pn, pt⟩ := p
    rw [propGeneratorsLoop] at h
    cases hg : getFieldGenerator maxAlloc pt with
    | error e => simp [hg] at h
    | ok g0 =>
      simp only [hg] at h
      obtain ⟨h1, h2⟩ := ih _ h
      constructor
      · intro name g hacc
        rcases h1 name g hacc with hin | ⟨t, ht, hc⟩
        · rw [mapaccess_mapassign] at hin
          by_cases hk : pn = name
          · subst hk
            simp only [if_true, Option.some.injEq] at hin
            subst hin
            exact Or.inr ⟨pt, List.mem_cons_self _ _, hg⟩
          · simp only [if_neg hk] at hin
            exact Or.inl hin
        · exact Or.inr ⟨t, List.mem_cons_of_mem _ ht, hc⟩
      · intro name hn
        apply h2
        rw [mapaccess_mapassign]
        by_cases hk : pn = name
        · right; simp [hk]
        · simp only [if_neg hk]
          rcases hn with hn | hn
          · left
            simp only [List.map_cons, List.mem_cons] at hn
            rcases hn with hn | hn
            · exact absurd hn.symm hk
            · exact hn
          · right; exact hn

theorem docGeneratorsLoop_spec (maxAlloc : Nat) (ps : GoMap FieldType)
    (acc gens : GoMap Generator) (h : docGeneratorsLoop maxAlloc ps acc = .ok gens) :
    (∀ name g, mapaccess gens name = some g →
      mapaccess acc name = some g ∨
        ∃ t, (name, t) ∈ ps ∧ getFieldGenerator maxAlloc t = .ok g) ∧
    (∀ name, (name ∈ ps.map Prod.fst ∨ (mapaccess acc name).isSome) →
      (mapaccess gens name).isSome) := by
  induction ps generalizing acc with
  | nil =>
    simp only [docGeneratorsLoop, Except.ok.injEq] at h
    subst h
    exact ⟨fun name g hg => Or.inl hg, fun name hn => by simpa using hn⟩
  | cons p rest ih =>
    obtain ⟨pn, pt⟩ := p
    rw [docGeneratorsLoop] at h
    cases hg : getFieldGenerator maxAlloc pt with
    | error e => simp [hg] at h
    | ok g0 =>
      simp only [hg] at h
      obtain ⟨h1, h2⟩ := ih _ h
      constructor
      · intro name g hacc
        rcases h1 name g hacc with hin | ⟨t, ht, hc⟩
        · rw [mapaccess_mapassign] at hin
          by_cases hk : pn = name
          · subst hk
            simp only [if_true, Option.some.injEq] at hin
            subst hin
            exact Or.inr ⟨pt, List.mem_cons_self _ _, hg⟩
          · simp only [if_neg hk] at hin
            exact Or.inl hin
        · exact Or.inr ⟨t, List.mem_cons_of_mem _ ht, hc⟩
      · intro name hn
        apply h2
        rw [mapaccess_mapassign]
        by_cases hk : pn = name
        · right; simp [hk]
        · simp only [if_neg hk]
          rcases hn with hn | hn
          · left
            simp only [List.map_cons, List.mem_cons] at hn
            rcases hn with hn | hn
            · exact absurd hn.symm hk
            · exact hn
          · right; exact hn

/-! ## Theorems: generation never panics on well-shaped types -/

theorem FieldType_induct {P : FieldType → Prop}
    (step : ∀ b ps e is ml mi, (∀ p ∈ ps, P p.2) → (∀ i ∈ is, P i) →
      P (.mk b ps e is ml mi)) : ∀ t, P t := by
  intro t
  refine FieldType.rec (motive_1 := P) (motive_2 := fun l => ∀ p ∈ l, P p.2)
    (motive_3 := fun l => ∀ i ∈ l, P i) (motive_4 := fun p => P p.2)
    (fun b ps e is ml mi h2 h3 => step b ps e is ml mi h2 h3) ?_ ?_ ?_ ?_ ?_ t
  · intro p hp; simp at hp
  · intro head tail h4 h2 p hp
    rcases List.mem_cons.mp hp with rfl | hp
    · exact h4
    · exact h2 p hp
  · intro i hi; simp at hi
  · intro head tail h1 h3 i hi
    rcases List.mem_cons.mp hi with rfl | hi
    · exact h1
    · exact h3 i hi
  · intro _ snd h; exact h

theorem wellShaped_mk (maxAlloc : Nat) (b : String) (ps : GoMap FieldType)
    (e : List Value) (is : List FieldType) (ml mi : Nat) :
    wellShaped maxAlloc (.mk b ps e is ml mi) =
      if e.length ≠ 0 then true
      else if b = stringType then
        makeslice maxAlloc 1 (if ml ≠ 0 then ml else defaultStringMaxLen)
      else if b = binDataType then
        makeslice maxAlloc 1 (if ml ≠ 0 then ml else defaultBinDataMaxLen)
      else if b = objectType then wellShapedProps maxAlloc ps
      else if b = arrayType then
        !is.isEmpty &&
          makeslice maxAlloc ifaceSize (if mi ≠ 0 then mi else defaultArrayItemsMaxLen) &&
          wellShapedItems maxAlloc is
      else true := by
  rw [wellShaped]

theorem wellShapedProps_iff (maxAlloc : Nat) (ps : GoMap FieldType) :
    wellShapedProps maxAlloc ps = true ↔ ∀ p ∈ ps, wellShaped maxAlloc p.2 = true := by
  induction ps with
  | nil => simp [wellShapedProps]
  | cons p rest ih =>
    obtain ⟨n, t⟩ := p
    simp [wellShapedProps, ih]

theorem wellShapedItems_iff (maxAlloc : Nat) (is : List FieldType) :
    wellShapedItems maxAlloc is = true ↔ ∀ i ∈ is, wellShaped maxAlloc i = true := by
  induction is with
  | nil => simp [wellShapedItems]
  | cons t rest ih => simp [wellShapedItems, ih]

theorem objectGenerator_total (ps : GoMap FieldType) (gens : GoMap Generator)
    (h : ∀ name ∈ ps.map Prod.fst, ∃ g, mapaccess gens name = some g ∧ Total g) :
    Total (objectGenerator ps gens) := by
  intro r
  have hperm := mapiter_perm (ps.map Prod.fst) r
  obtain ⟨fs, r', hfs⟩ := genFields_total gens (mapiter (ps.map Prod.fst) r).1
    (fun name hn => h name (hperm.mem_iff.mp hn)) (mapiter (ps.map Prod.fst) r).2
  exact ⟨Value.doc fs, r', by simp only [objectGenerator, hfs]⟩

theorem arrayGenerator_total (maxAlloc : Nat) (gens : List Generator) (n : Nat)
    (hn : gens ≠ []) (hm : makeslice maxAlloc ifaceSize n = true)
    (ht : ∀ g ∈ gens, Total g) :
    Total (arrayGenerator maxAlloc gens.length gens n) := by
  intro r
  have hl : gens.length ≠ 0 := fun h0 => hn (List.length_eq_zero.mp h0)
  obtain ⟨vs, r', hvs⟩ := arrayLoop_total gens gens.length hl rfl ht (toInt n).toNat r
  exact ⟨Value.arr vs, r', by simp only [arrayGenerator, hm, if_true, hvs]⟩

/-- Lookup facts for the generators bound by one of the two compile loops. -/
theorem bound_generators_total (maxAlloc : Nat) (ps : GoMap FieldType) (gens : GoMap Generator)
    (hspec : (∀ name g, mapaccess gens name = some g →
      mapaccess ([] : GoMap Generator) name = some g ∨
        ∃ t, (name, t) ∈ ps ∧ getFieldGenerator maxAlloc t = .ok g) ∧
      (∀ name, (name ∈ ps.map Prod.fst ∨ (mapaccess ([] : GoMap Generator) name).isSome) →
        (mapaccess gens name).isSome))
    (hsub : ∀ p ∈ ps, ∀ g, getFieldGenerator maxAlloc p.2 = .ok g → Total g) :
    ∀ name ∈ ps.map Prod.fst, ∃ g, mapaccess gens name = some g ∧ Total g := by
  intro name hn
  have hsome := hspec.2 name (Or.inl hn)
  obtain ⟨g, hg⟩ := Option.isSome_iff_exists.mp hsome
  refine ⟨g, hg, ?_⟩
  rcases hspec.1 name g hg with h0 | ⟨t, ht, hc⟩
  · simp [mapaccess] at h0
  · exact hsub (name, t) ht g hc

theorem total_of_wellShaped (maxAlloc : Nat) :
    ∀ t g, getFieldGenerator maxAlloc t = .ok g → wellShaped maxAlloc t = true → Total g := by
  intro t
  induction t using FieldType_induct with
  | step b ps e is ml mi ihp ihi =>
    intro g hc hw
    rw [getFieldGenerator_mk] at hc
    rw [wellShaped_mk] at hw
    by_cases he : e.length ≠ 0
    · simp only [if_pos he, Except.ok.injEq] at hc
      subst hc
      intro r
      have hne : e ≠ [] := fun h0 => he (by simp [h0])
      obtain ⟨v, hv, _⟩ := enumGenerator_ok e hne r
      exact ⟨v, _, hv⟩
    simp only [if_neg he] at hc hw
    by_cases h1 : b = doubleType
    · simp only [if_pos h1, Except.ok.injEq] at hc
      subst hc
      exact fun r => ⟨_, _, rfl⟩
    simp only [if_neg h1] at hc
    by_cases h2 : b = stringType
    · simp only [if_pos h2, Except.ok.injEq] at hc hw
      subst hc
      intro r
      obtain ⟨bs, r', hbs, _⟩ := randBytes_ok maxAlloc _ hw r
      exact ⟨Value.str bs, r', by simp only [stringGenerator, hbs]⟩
    simp only [if_neg h2] at hc hw
    by_cases h3 : b = binDataType
    · simp only [if_pos h3, Except.ok.injEq] at hc hw
      subst hc
      intro r
      obtain ⟨bs, r', hbs, _⟩ := randBytes_ok maxAlloc _ hw r
      exact ⟨Value.bin bs, r', by simp only [binDataGenerator, hbs]⟩
    simp only [if_neg h3] at hc hw
    by_cases h4 : b = objectIDType
    · simp only [if_pos h4, Except.ok.injEq] at hc
      subst hc
      exact fun r => ⟨_, _, rfl⟩
    simp only [if_neg h4] at hc
    by_cases h5 : b = boolType
    · simp only [if_pos h5, Except.ok.injEq] at hc
      subst hc
      exact fun r => ⟨_, _, rfl⟩
    simp only [if_neg h5] at hc
    by_cases h6 : b = intType
    · simp only [if_pos h6, Except.ok.injEq] at hc
      subst hc
      exact fun r => ⟨_, _, rfl⟩
    simp only [if_neg h6] at hc
    by_cases h7 : b = longType
    · simp only [if_pos h7, Except.ok.injEq] at hc
      subst hc
      exact fun r => ⟨_, _, rfl⟩
    simp only [if_neg h7] at hc
    by_cases h8 : b = objectType
    · simp only [if_pos h8] at hc hw
      cases hl : propGeneratorsLoop maxAlloc ps [] with
      | error e => simp [hl] at hc
      | ok gens =>
        simp only [hl, Except.ok.injEq] at hc
        subst hc
        have hwp := (wellShapedProps_iff maxAlloc ps).mp hw
        exact objectGenerator_total ps gens
          (bound_generators_total maxAlloc ps gens (propGeneratorsLoop_spec maxAlloc ps [] gens hl)
            (fun p hp g hg => ihp p hp g hg (hwp p hp)))
    simp only [if_neg h8] at hc hw
    by_cases h9 : b = arrayType
    · simp only [if_pos h9] at hc hw
      cases hl : itemGeneratorsLoop maxAlloc is with
      | error e => simp [hl] at hc
      | ok gens =>
        simp only [hl, Except.ok.injEq] at hc
        subst hc
        simp only [Bool.and_eq_true, Bool.not_eq_true', List.isEmpty_eq_false] at hw
        obtain ⟨⟨hne, hm⟩, hwi⟩ := hw
        have hwi2 := (wellShapedItems_iff maxAlloc is).mp hwi
        obtain ⟨hlen, hall⟩ := itemGeneratorsLoop_spec maxAlloc is gens hl
        have hgne : gens ≠ [] := by
          intro h0
          rw [h0] at hlen
          exact hne (List.length_eq_zero.mp hlen.symm)
        rw [← hlen]
        exact arrayGenerator_total maxAlloc gens _ hgne hm
          (fun g hg => by
            obtain ⟨t, ht, hc⟩ := hall g hg
            exact ihi t ht g hc (hwi2 t ht))
    · simp [if_neg h9] at hc

/-! ## Theorems: arrays, objects and documents -/

theorem getFieldGenerator_array (maxAlloc : Nat) (t : FieldType) (g : Generator)
    (henum : t.Enum = []) (hb : t.BsonType = arrayType)
    (hc : getFieldGenerator maxAlloc t = .ok g) :
    ∃ gens, itemGeneratorsLoop maxAlloc t.Items = .ok gens ∧
      g = arrayGenerator maxAlloc t.Items.length gens (arrayLen t) := by
  obtain ⟨b, ps, e, is, ml, mi⟩ := t
  simp only [FieldType.Enum, FieldType.BsonType, FieldType.Items, arrayLen,
    FieldType.MaxItems] at henum hb ⊢
  subst henum hb
  rw [getFieldGenerator_mk] at hc
  simp only [List.length_nil, ne_eq, not_true_eq_false, if_false, arrayType, doubleType,
    stringType, binDataType, objectIDType, boolType, intType, longType, objectType,
    String.reduceEq, if_true] at hc
  cases hl : itemGeneratorsLoop maxAlloc is with
  | error e => simp [hl] at hc
  | ok gens =>
    simp only [hl, Except.ok.injEq] at hc
    exact ⟨gens, rfl, by rw [← hc]; rfl⟩

theorem getFieldGenerator_object (maxAlloc : Nat) (t : FieldType) (g : Generator)
    (henum : t.Enum = []) (hb : t.BsonType = objectType)
    (hc : getFieldGenerator maxAlloc t = .ok g) :
    ∃ gens, propGeneratorsLoop maxAlloc t.Properties [] = .ok gens ∧
      g = objectGenerator t.Properties gens := by
  obtain ⟨b, ps, e, is, ml, mi⟩ := t
  simp only [FieldType.Enum, FieldType.BsonType, FieldType.Properties] at henum hb ⊢
  subst henum hb
  rw [getFieldGenerator_mk] at hc
  simp only [List.length_nil, ne_eq, not_true_eq_false, if_false, arrayType, doubleType,
    stringType, binDataType, objectIDType, boolType, intType, longType, objectType,
    String.reduceEq, if_true] at hc
  cases hl : propGeneratorsLoop maxAlloc ps [] with
  | error e => simp [hl] at hc
  | ok gens =>
    simp only [hl, Except.ok.injEq] at hc
    exact ⟨gens, rfl, hc.symm⟩

/-- C5 (amended). For an array field with empty enum that compiles: whenever
an invocation returns, it returns a sequence of exactly `maxItems` elements
(1 when `maxItems` is 0), each produced by the generator of one of the
declared item types; and every invocation does return when the field declares
at least one item type, `make` accepts the item count, and the generators of
the item types always return. -/
theorem array_length (maxAlloc : Nat) (t : FieldType) (g : Generator)
    (henum : t.Enum = []) (hb : t.BsonType = arrayType)
    (hc : getFieldGenerator maxAlloc t = .ok g) :
    (∀ r v r', g r = .ok (v, r') →
      ∃ vs, v = Value.arr vs ∧ vs.length = arrayLen t ∧
        ∀ x ∈ vs, ∃ item ∈ t.Items, ∃ gi r1 r2,
          getFieldGenerator maxAlloc item = .ok gi ∧ gi r1 = .ok (x, r2)) ∧
    (t.Items ≠ [] → makeslice maxAlloc ifaceSize (arrayLen t) = true →
      (∀ item ∈ t.Items, ∀ gi, getFieldGenerator maxAlloc item = .ok gi → Total gi) →
      Total g) := by
  obtain ⟨gens, hl, hg⟩ := getFieldGenerator_array maxAlloc t g henum hb hc
  obtain ⟨hlen, hall⟩ := itemGeneratorsLoop_spec maxAlloc t.Items gens hl
  subst hg
  constructor
  · intro r v r' hr
    simp only [arrayGenerator] at hr
    by_cases hm : makeslice maxAlloc ifaceSize (arrayLen t) = true
    · simp only [hm, if_true] at hr
      cases hloop : arrayLoop gens t.Items.length (toInt (arrayLen t)).toNat r with
      | error e => simp [hloop] at hr
      | ok p =>
        obtain ⟨vs, r2⟩ := p
        simp only [hloop, Except.ok.injEq, Prod.mk.injEq] at hr
        obtain ⟨h1, h2⟩ := arrayLoop_spec gens _ _ r vs r2 hloop
        refine ⟨vs, hr.1.symm, ?_, ?_⟩
        · rw [h1, toInt_toNat _ (makeslice_lt _ _ _ hm)]
        · intro x hx
          obtain ⟨gi, hgi, r1, r3, hx2⟩ := h2 x hx
          obtain ⟨item, hitem, hci⟩ := hall gi hgi
          exact ⟨item, hitem, gi, r1, r3, hci, hx2⟩
    · simp [hm] at hr
  · intro hne hm htot
    have hgne : gens ≠ [] := by
      intro h0
      rw [h0] at hlen
      exact hne (List.length_eq_zero.mp hlen.symm)
    rw [← hlen]
    exact arrayGenerator_total maxAlloc gens _ hgne hm
      (fun gi hgi => by
        obtain ⟨item, hitem, hci⟩ := hall gi hgi
        exact htot item hitem gi hci)

/-- Witness for C5: an array of three booleans. -/
theorem array_length_witness :
    ∃ g, getFieldGenerator 64 (.mk "array" [] [] [.mk "bool" [] [] [] 0 0] 0 3) = .ok g ∧
      (∀ r v r', g r = .ok (v, r') → ∃ vs, v = Value.arr vs ∧ vs.length = 3) ∧ Total g := by
  refine ⟨_, rfl, ?_, ?_⟩
  · intro r v r' hr
    obtain ⟨vs, h1, h2, _⟩ :=
      (array_length 64 (.mk "array" [] [] [.mk "bool" [] [] [] 0 0] 0 3) _ rfl rfl rfl).1
        r v r' hr
    exact ⟨vs, h1, h2⟩
  · refine (array_length 64 (.mk "array" [] [] [.mk "bool" [] [] [] 0 0] 0 3) _ rfl rfl rfl).2
      (by simp [FieldType.Items]) (by decide) ?_
    intro item hitem gi hgi
    exact total_of_wellShaped 64 item gi hgi (by
      simp only [FieldType.Items, List.mem_singleton] at hitem
      subst hitem
      decide)

/-- C5 as stated fails: an array field asking for 2^63 booleans compiles, and
every invocation panics in `make`, on every platform, producing no sequence. -/
theorem array_length_counterexample :
    (FieldType.mk "array" [] [] [.mk "bool" [] [] [] 0 0] 0 (2 ^ 63)).Enum = [] ∧
    (FieldType.mk "array" [] [] [.mk "bool" [] [] [] 0 0] 0 (2 ^ 63)).MaxItems < 2 ^ 64 ∧
    ∀ (maxAlloc : Nat) (r : Rand), ∃ g,
      getFieldGenerator maxAlloc (.mk "array" [] [] [.mk "bool" [] [] [] 0 0] 0 (2 ^ 63)) =
        .ok g ∧
      g r = .error "runtime error: makeslice: cap out of range" := by
  refine ⟨rfl, by simp [FieldType.MaxItems], fun maxAlloc r => ⟨_, rfl, ?_⟩⟩
  simp only [arrayGenerator]
  rw [if_neg]
  simp [defaultArrayItemsMaxLen, makeslice]

/-- C8: the code at the failing input.  An array field without item types
compiles, and every invocation of its generator panics: with a division by
zero when `make` accepts one element, in `make` otherwise. -/
theorem empty_items_array_panics (maxAlloc : Nat) (r : Rand) :
    ∃ g, getFieldGenerator maxAlloc (.mk "array" [] [] [] 0 0) = .ok g ∧
      g r = .error (if makeslice maxAlloc ifaceSize 1 = true
        then "runtime error: integer divide by zero"
        else "runtime error: makeslice: cap out of range") := by
  refine ⟨_, rfl, ?_⟩
  simp only [arrayGenerator, defaultArrayItemsMaxLen]
  by_cases hm : makeslice maxAlloc ifaceSize 1 = true
  · simp only [ne_eq, not_true_eq_false, if_false, hm, if_true]
    have : (toInt 1).toNat = 1 := by decide
    rw [this]
    rfl
  · simp only [ne_eq, not_true_eq_false, if_false, hm]
    rfl

theorem genFields_shuffled_keys (gens : GoMap Generator) (names : List String) (r : Rand)
    (fs : List (String × Value)) (r' : Rand) (hnd : names.Nodup)
    (h : genFields gens (mapiter names r).1 (mapiter names r).2 = .ok (fs, r')) :
    (fs.map Prod.fst).Perm names ∧ (fs.map Prod.fst).Nodup ∧ fs.length = names.length := by
  have hk := genFields_keys gens _ _ fs r' h
  have hp := mapiter_perm names r
  rw [← hk] at hp
  refine ⟨hp, hp.nodup_iff.mpr hnd, ?_⟩
  have := hp.length_eq
  simpa using this

theorem GetDocGenerator_keys (maxAlloc : Nat) (c : schema.Collection) (gd : DocGenerator)
    (hckeys : (c.Schema.map Prod.fst).Nodup) (hcd : c.GetDocGenerator maxAlloc = .ok gd)
    (r : Rand) (fs : List (String × Value)) (r' : Rand) (hr : gd r = .ok (fs, r')) :
    (fs.map Prod.fst).Perm (c.Schema.map Prod.fst) ∧ (fs.map Prod.fst).Nodup ∧
      fs.length = c.Schema.length := by
  simp only [schema.Collection.GetDocGenerator] at hcd
  cases hloop : docGeneratorsLoop maxAlloc c.Schema [] with
  | error e => simp [hloop] at hcd
  | ok dgens =>
    simp only [hloop, Except.ok.injEq] at hcd
    subst hcd
    have := genFields_shuffled_keys dgens _ r fs r' hckeys hr
    simpa using this

theorem GetDocGenerator_total (maxAlloc : Nat) (c : schema.Collection) (gd : DocGenerator)
    (hcd : c.GetDocGenerator maxAlloc = .ok gd)
    (hw : ∀ p ∈ c.Schema, wellShaped maxAlloc p.2 = true) : TotalDoc gd := by
  intro r
  simp only [schema.Collection.GetDocGenerator] at hcd
  cases hloop : docGeneratorsLoop maxAlloc c.Schema [] with
  | error e => simp [hloop] at hcd
  | ok dgens =>
    simp only [hloop, Except.ok.injEq] at hcd
    subst hcd
    have hperm := mapiter_perm (c.Schema.map Prod.fst) r
    have hb := bound_generators_total maxAlloc c.Schema dgens
      (docGeneratorsLoop_spec maxAlloc c.Schema [] dgens hloop)
      (fun p hp g hg => total_of_wellShaped maxAlloc p.2 g hg (hw p hp))
    exact genFields_total dgens _ (fun name hn => hb name (hperm.mem_iff.mp hn)) _

/-- C6. For an object field with empty enum that compiles, every value its
generator returns is a document whose keys are the declared property names,
each exactly once, in some order; and the generator does return on every
oracle when the field is well shaped.  Likewise every document returned by a
collection's document generator has exactly the declared top-level field
names, each once, hence `len(Schema)` entries; and it does return when every
top-level field is well shaped.  Property and field names are map keys, so
pairwise distinct. -/
theorem exact_field_set (maxAlloc : Nat) (t : FieldType) (c : schema.Collection)
    (g : Generator) (gd : DocGenerator)
    (henum : t.Enum = []) (hb : t.BsonType = objectType)
    (hkeys : (t.Properties.map Prod.fst).Nodup) (hckeys : (c.Schema.map Prod.fst).Nodup)
    (hc : getFieldGenerator maxAlloc t = .ok g)
    (hcd : c.GetDocGenerator maxAlloc = .ok gd) :
    (∀ r v r', g r = .ok (v, r') →
      ∃ fs, v = Value.doc fs ∧ (fs.map Prod.fst).Perm (t.Properties.map Prod.fst) ∧
        (fs.map Prod.fst).Nodup) ∧
    (wellShaped maxAlloc t = true → Total g) ∧
    (∀ r fs r', gd r = .ok (fs, r') →
      (fs.map Prod.fst).Perm (c.Schema.map Prod.fst) ∧ (fs.map Prod.fst).Nodup ∧
        fs.length = c.Schema.length) ∧
    ((∀ p ∈ c.Schema, wellShaped maxAlloc p.2 = true) → TotalDoc gd) := by
  obtain ⟨gens, hl, hg⟩ := getFieldGenerator_object maxAlloc t g henum hb hc
  refine ⟨?_, fun hw => total_of_wellShaped maxAlloc t g hc hw, ?_, ?_⟩
  · intro r v r' hr
    subst hg
    simp only [objectGenerator] at hr
    cases hf : genFields gens (mapiter (t.Properties.map Prod.fst) r).1
        (mapiter (t.Properties.map Prod.fst) r).2 with
    | error e => simp [hf] at hr
    | ok p =>
      obtain ⟨fs, r2⟩ := p
      simp only [hf, Except.ok.injEq, Prod.mk.injEq] at hr
      obtain ⟨h1, h2, _⟩ := genFields_shuffled_keys gens _ r fs r2 hkeys hf
      exact ⟨fs, hr.1.symm, h1, h2⟩
  · exact fun r fs r' hr => GetDocGenerator_keys maxAlloc c gd hckeys hcd r fs r' hr
  · exact fun hw => GetDocGenerator_total maxAlloc c gd hcd hw

/-- Witness for C6: the object `{a: bool, b: string}` and the schema of the
end-to-end scenario `{id: objectId, amount: double}`. -/
theorem exact_field_set_witness :
    ∃ g gd,
      getFieldGenerator 64 (.mk "object"
        [("a", .mk "bool" [] [] [] 0 0), ("b", .mk "string" [] [] [] 0 0)] [] [] 0 0) = .ok g ∧
      schema.Collection.GetDocGenerator 64
        ⟨[("id", .mk "objectId" [] [] [] 0 0), ("amount", .mk "double" [] [] [] 0 0)], [],
          50000⟩ = .ok gd ∧
      (∀ r v r', g r = .ok (v, r') →
        ∃ fs, v = Value.doc fs ∧ (fs.map Prod.fst).Perm ["a", "b"] ∧ (fs.map Prod.fst).Nodup) ∧
      Total g ∧
      (∀ r fs r', gd r = .ok (fs, r') →
        (fs.map Prod.fst).Perm ["id", "amount"] ∧ (fs.map Prod.fst).Nodup ∧ fs.length = 2) ∧
      TotalDoc gd := by
  have h := exact_field_set 64
    (.mk "object" [("a", .mk "bool" [] [] [] 0 0), ("b", .mk "string" [] [] [] 0 0)] [] [] 0 0)
    ⟨[("id", .mk "objectId" [] [] [] 0 0), ("amount", .mk "double" [] [] [] 0 0)], [], 50000⟩
    _ _ rfl rfl (by decide) (by decide) rfl rfl
  exact ⟨_, _, rfl, rfl, h.1, h.2.1 (by decide), h.2.2.1, h.2.2.2 (by decide)⟩

/-! ## Theorems: the store pipeline -/

theorem mapiter_length {α : Type} (l : List α) (r : Rand) : (mapiter l r).1.length = l.length :=
  (mapiter_perm l r).length_eq

theorem createIndexes_failFast (db : Database) (collName : String)
    (idxs : List (String × schema.Index)) (hist : List Event) (r : Rand) :
    FailFast (List.replicate idxs.length Kind.createIndex)
      (collection.createIndexes db collName idxs hist r).trace
      (collection.createIndexes db collName idxs hist r).out := by
  induction idxs generalizing hist r with
  | nil => exact ⟨by simp [collection.createIndexes], by simp [collection.createIndexes],
      by simp [collection.createIndexes]⟩
  | cons p rest ih =>
    obtain ⟨name, index⟩ := p
    rw [collection.createIndexes]
    simp only
    split
    · rename_i e he
      refine ⟨?_, fun _ => ⟨_, rfl⟩, by simp⟩
      simp [Event.kind, Op.kind, List.replicate_succ]
    · rename_i he
      obtain ⟨h1, h2, h3⟩ := ih (hist ++ [⟨Op.createOne collName index.Parts name index.Unique
        (mapiter index.PartialFilterExpression r).1, false⟩])
        (mapiter index.PartialFilterExpression r).2
      refine ⟨?_, ?_, ?_⟩
      · simp only [List.map_cons, List.length_cons, List.replicate_succ]
        exact List.cons_prefix_cons.mpr ⟨rfl, h1⟩
      · rintro ⟨e, hmem, hf⟩
        rcases List.mem_cons.mp hmem with rfl | hmem
        · simp at hf
        · exact h2 ⟨e, hmem, hf⟩
      · intro a ha
        simp only [List.map_cons, List.length_cons, List.replicate_succ]
        rw [h3 a ha]
        rfl

theorem create_failFast (c : collection.Collection) (db : Database) (hist : List Event)
    (r : Rand) :
    FailFast (Kind.createCollection :: List.replicate c.indexes.length Kind.createIndex)
      (c.create db hist r).trace (c.create db hist r).out := by
  simp only [collection.Collection.create]
  split
  · rename_i e he
    refine ⟨?_, fun _ => ⟨_, rfl⟩, by simp⟩
    simp [Event.kind, Op.kind]
  · rename_i he
    obtain ⟨h1, h2, h3⟩ := createIndexes_failFast db c.Name (mapiter c.indexes r).1
      (hist ++ [⟨Op.createCollection c.Name, false⟩]) (mapiter c.indexes r).2
    rw [mapiter_length] at h1 h3
    refine ⟨?_, ?_, ?_⟩
    · simp only [List.map_cons]
      exact List.cons_prefix_cons.mpr ⟨rfl, h1⟩
    · rintro ⟨e, hmem, hf⟩
      rcases List.mem_cons.mp hmem with rfl | hmem
      · simp at hf
      · exact h2 ⟨e, hmem, hf⟩
    · intro a ha
      simp only [List.map_cons]
      rw [h3 a ha]
      rfl

theorem create_no_panic (c : collection.Collection) (db : Database) (hist : List Event)
    (r : Rand) (p : String) : (c.create db hist r).out ≠ .panic p := by
  have aux : ∀ (idxs : List (String × schema.Index)) (hist : List Event) (r : Rand),
      (collection.createIndexes db c.Name idxs hist r).out ≠ .panic p := by
    intro idxs
    induction idxs with
    | nil => intro hist r; simp [collection.createIndexes]
    | cons q rest ih =>
      intro hist r
      obtain ⟨name, index⟩ := q
      rw [collection.createIndexes]
      simp only
      split
      · simp
      · exact ih _ _
  simp only [collection.Collection.create]
  split
  · simp
  · exact aux _ _ _

theorem fillLoop_failFast (c : collection.Collection) (db : Database) (n : Nat)
    (hist : List Event) (r : Rand) :
    FailFast (List.replicate n Kind.insert)
      (collection.fillLoop c db n hist r).trace (collection.fillLoop c db n hist r).out := by
  induction n generalizing hist r with
  | zero => exact ⟨by simp [collection.fillLoop], by simp [collection.fillLoop],
      by simp [collection.fillLoop]⟩
  | succ n ih =>
    rw [collection.fillLoop]
    split
    · exact ⟨by simp, by simp, by simp⟩
    · rename_i batch r1 hb
      simp only
      split
      · rename_i e he
        refine ⟨?_, fun _ => ⟨_, rfl⟩, by simp⟩
        simp [Event.kind, Op.kind, List.replicate_succ]
      · rename_i he
        obtain ⟨h1, h2, h3⟩ := ih (hist ++ [⟨Op.insertMany c.Name batch, false⟩]) r1
        refine ⟨?_, ?_, ?_⟩
        · simp only [List.map_cons, List.replicate_succ]
          exact List.cons_prefix_cons.mpr ⟨rfl, h1⟩
        · rintro ⟨e, hmem, hf⟩
          rcases List.mem_cons.mp hmem with rfl | hmem
          · simp at hf
          · exact h2 ⟨e, hmem, hf⟩
        · intro a ha
          simp only [List.map_cons, List.replicate_succ]
          rw [h3 a ha]
          rfl

theorem fill_failFast (c : collection.Collection) (db : Database) (hist : List Event)
    (r : Rand) :
    FailFast (List.replicate 10 Kind.insert) (c.fill db hist r).trace (c.fill db hist r).out :=
  fillLoop_failFast c db 10 hist r

theorem collectStat_failFast (c : collection.Collection) (db : Database) (hist : List Event) :
    FailFast [Kind.validate, Kind.reIndex, Kind.collStats]
      (c.collectStat db hist).1 (c.collectStat db hist).2 := by
  simp only [collection.Collection.collectStat]
  split
  · exact ⟨by simp [Event.kind, Op.kind], fun _ => ⟨_, rfl⟩, by simp⟩
  · split
    · exact ⟨by simp [Event.kind, Op.kind, List.prefix_cons_inj], fun _ => ⟨_, rfl⟩, by simp⟩
    · split
      · exact ⟨by simp [Event.kind, Op.kind], fun _ => ⟨_, rfl⟩, by simp⟩
      · split
        · exact ⟨by simp [Event.kind, Op.kind], fun _ => ⟨_, rfl⟩, by simp⟩
        · exact ⟨by simp [Event.kind, Op.kind], by simp, by simp [Event.kind, Op.kind]⟩

theorem collectStat_no_panic (c : collection.Collection) (db : Database) (hist : List Event)
    (p : String) : (c.collectStat db hist).2 ≠ .panic p := by
  simp only [collection.Collection.collectStat]
  split
  · simp
  · split
    · simp
    · split
      · simp
      · split <;> simp

theorem failFast_kind_mem {α : Type} {full : List Kind} {trace : List Event}
    {out : Outcome α} (h : FailFast full trace out) (e : Event) (he : e ∈ trace) :
    e.kind ∈ full :=
  h.1.subset (List.mem_map_of_mem Event.kind he)

theorem failFast_ok_no_failure {α : Type} {full : List Kind} {trace : List Event}
    {out : Outcome α} (h : FailFast full trace out) (a : α) (ha : out = .ok a)
    (e : Event) (he : e ∈ trace) : e.failed = false := by
  cases hf : e.failed with
  | false => rfl
  | true =>
    obtain ⟨msg, hmsg⟩ := h.2.1 ⟨e, he, hf⟩
    rw [ha] at hmsg
    cases hmsg

theorem kind_create_part (k : Nat) (x : Kind)
    (h : x ∈ Kind.createCollection :: List.replicate k Kind.createIndex) :
    x = Kind.createCollection ∨ x = Kind.createIndex := by
  rcases List.mem_cons.mp h with h | h
  · exact Or.inl h
  · exact Or.inr (List.eq_of_mem_replicate h)

theorem kind_insert_part (k : Nat) (x : Kind) (h : x ∈ List.replicate k Kind.insert) :
    x = Kind.insert := List.eq_of_mem_replicate h

theorem kind_stat_part (x : Kind) (h : x ∈ [Kind.validate, Kind.reIndex, Kind.collStats]) :
    x = Kind.validate ∨ x = Kind.reIndex ∨ x = Kind.collStats := by
  simpa using h

/-- What the trace of a three-stage run satisfies, whichever stage it stopped
in: `tb` and `ts` are empty when the run stopped earlier. -/
theorem pipeline_traces (ta tb ts : List Event)
    (ka : ∀ e ∈ ta, e.kind = Kind.createCollection ∨ e.kind = Kind.createIndex)
    (kb : ∀ e ∈ tb, e.kind = Kind.insert)
    (ks : ∀ e ∈ ts, e.kind = Kind.validate ∨ e.kind = Kind.reIndex ∨ e.kind = Kind.collStats)
    (hab : tb ≠ [] → ∀ e ∈ ta, e.failed = false)
    (hs : ts ≠ [] → ∀ e ∈ ta ++ tb, e.failed = false) :
    ((∃ e ∈ ta ++ tb ++ ts, e.failed = true ∧
        (e.kind = Kind.createCollection ∨ e.kind = Kind.createIndex)) →
      ∀ e ∈ ta ++ tb ++ ts, e.kind = Kind.createCollection ∨ e.kind = Kind.createIndex) ∧
    ((∃ e ∈ ta ++ tb ++ ts, e.failed = true ∧ e.kind = Kind.insert) →
      ∀ e ∈ ta ++ tb ++ ts,
        e.kind ≠ Kind.validate ∧ e.kind ≠ Kind.reIndex ∧ e.kind ≠ Kind.collStats) := by
  constructor
  · rintro ⟨e, hmem, hf, hk⟩ e' hmem'
    have hta : e ∈ ta := by
      simp only [List.mem_append] at hmem
      rcases hmem with (h | h) | h
      · exact h
      · rw [kb e h] at hk; simp at hk
      · rcases ks e h with h2 | h2 | h2 <;> rw [h2] at hk <;> simp at hk
    have htb : tb = [] := by
      by_contra hne
      have := hab hne e hta
      rw [this] at hf; cases hf
    have hts : ts = [] := by
      by_contra hne
      have := hs hne e (List.mem_append_left _ hta)
      rw [this] at hf; cases hf
    subst htb hts
    simp only [List.append_nil] at hmem'
    exact ka e' hmem'
  · rintro ⟨e, hmem, hf, hk⟩ e' hmem'
    have hts : ts = [] := by
      by_contra hne
      simp only [List.mem_append] at hmem
      rcases hmem with h | h
      · have := hs hne e (List.mem_append.mpr h)
        rw [this] at hf; cases hf
      · rcases ks e h with h2 | h2 | h2 <;> rw [h2] at hk <;> simp at hk
    subst hts
    simp only [List.append_nil, List.mem_append] at hmem'
    rcases hmem' with h | h
    · rcases ka e' h with h2 | h2 <;> rw [h2] <;> simp
    · rw [kb e' h]; simp

/-- Upper bounds on the trace of `Stat`: what was issued is an initial part
of the pipeline, nothing follows a failed request of an earlier stage, a
failed request makes the outcome an error, and a returned `Stat` means the
whole pipeline ran without failure. -/
theorem stat_trace_bounds (c : collection.Collection) (db : Database) (size : Nat)
    (hist : List Event) (r : Rand) :
    ((c.Stat db size hist r).1.map Event.kind <+: expectedKinds c.indexes.length) ∧
    ((∃ e ∈ (c.Stat db size hist r).1, e.failed = true ∧
        (e.kind = Kind.createCollection ∨ e.kind = Kind.createIndex)) →
      ∀ e ∈ (c.Stat db size hist r).1,
        e.kind = Kind.createCollection ∨ e.kind = Kind.createIndex) ∧
    ((∃ e ∈ (c.Stat db size hist r).1, e.failed = true ∧ e.kind = Kind.insert) →
      ∀ e ∈ (c.Stat db size hist r).1,
        e.kind ≠ Kind.validate ∧ e.kind ≠ Kind.reIndex ∧ e.kind ≠ Kind.collStats) ∧
    ((∃ e ∈ (c.Stat db size hist r).1, e.failed = true) →
      ∃ msg, (c.Stat db size hist r).2 = .err msg) ∧
    (∀ stat, (c.Stat db size hist r).2 = .ok stat →
      (c.Stat db size hist r).1.map Event.kind = expectedKinds c.indexes.length ∧
        ∀ e ∈ (c.Stat db size hist r).1, e.failed = false) := by
  simp only [collection.Collection.Stat]
  have ha := create_failFast c db hist r
  have hap := create_no_panic c db hist r
  generalize c.create db hist r = a at ha hap ⊢
  have hb := fill_failFast c db (hist ++ a.trace) a.rnd
  generalize c.fill db (hist ++ a.trace) a.rnd = b at hb ⊢
  have hs := collectStat_failFast c db (hist ++ a.trace ++ b.trace)
  have hsp := collectStat_no_panic c db (hist ++ a.trace ++ b.trace)
  generalize c.collectStat db (hist ++ a.trace ++ b.trace) = s at hs hsp ⊢
  have ka : ∀ e ∈ a.trace, e.kind = Kind.createCollection ∨ e.kind = Kind.createIndex :=
    fun e he => kind_create_part _ _ (failFast_kind_mem ha e he)
  have kb : ∀ e ∈ b.trace, e.kind = Kind.insert :=
    fun e he => kind_insert_part _ _ (failFast_kind_mem hb e he)
  have ks : ∀ e ∈ s.1, e.kind = Kind.validate ∨ e.kind = Kind.reIndex ∨
      e.kind = Kind.collStats :=
    fun e he => kind_stat_part _ (failFast_kind_mem hs e he)
  cases hao : a.out with
  | panic p => exact absurd hao (hap p)
  | err e =>
    simp only []
    have h := pipeline_traces a.trace [] [] ka (by simp) (by simp) (by simp) (by simp)
    simp only [List.append_nil] at h
    refine ⟨?_, h.1, h.2, fun _ => ⟨_, rfl⟩, by simp⟩
    exact ha.1.trans (by simp [expectedKinds, List.append_assoc])
  | ok u =>
    have hafull := ha.2.2 u hao
    have hanf := failFast_ok_no_failure ha u hao
    simp only []
    cases hbo : b.out with
    | panic p =>
      simp only []
      have h := pipeline_traces a.trace b.trace [] ka kb (by simp) (fun _ => hanf) (by simp)
      simp only [List.append_nil] at h
      refine ⟨?_, h.1, h.2, ?_, by simp⟩
      · rw [List.map_append, hafull, expectedKinds, List.append_assoc]
        exact (List.prefix_append_right_inj _).mpr (hb.1.trans (List.prefix_append _ _))
      · rintro ⟨e, hmem, hf⟩
        rcases List.mem_append.mp hmem with h1 | h1
        · rw [hanf e h1] at hf; cases hf
        · obtain ⟨msg, hmsg⟩ := hb.2.1 ⟨e, h1, hf⟩
          rw [hbo] at hmsg; cases hmsg
    | err e =>
      simp only []
      have h := pipeline_traces a.trace b.trace [] ka kb (by simp) (fun _ => hanf) (by simp)
      simp only [List.append_nil] at h
      refine ⟨?_, h.1, h.2, fun _ => ⟨_, rfl⟩, by simp⟩
      rw [List.map_append, hafull, expectedKinds, List.append_assoc]
      exact (List.prefix_append_right_inj _).mpr (hb.1.trans (List.prefix_append _ _))
    | ok u2 =>
      have hbfull := hb.2.2 u2 hbo
      have hbnf := failFast_ok_no_failure hb u2 hbo
      have habnf : ∀ e ∈ a.trace ++ b.trace, e.failed = false := by
        intro e he
        rcases List.mem_append.mp he with h1 | h1
        · exact hanf e h1
        · exact hbnf e h1
      have h := pipeline_traces a.trace b.trace s.1 ka kb ks (fun _ => hanf) (fun _ => habnf)
      have hpre : (a.trace ++ b.trace ++ s.1).map Event.kind <+:
          expectedKinds c.indexes.length := by
        rw [List.map_append, List.map_append, hafull, hbfull, expectedKinds]
        exact (List.prefix_append_right_inj _).mpr hs.1
      simp only []
      cases hso : s.2 with
      | panic p => exact absurd hso (hsp p)
      | err e =>
        simp only []
        exact ⟨hpre, h.1, h.2, fun _ => ⟨_, rfl⟩, by simp⟩
      | ok rawStat =>
        have hsfull := hs.2.2 rawStat hso
        have hsnf := failFast_ok_no_failure hs rawStat hso
        have hfull : (a.trace ++ b.trace ++ s.1).map Event.kind =
            expectedKinds c.indexes.length := by
          rw [List.map_append, List.map_append, hafull, hbfull, hsfull, expectedKinds]
        have hnf : ∀ e ∈ a.trace ++ b.trace ++ s.1, e.failed = false := by
          intro e he
          rcases List.mem_append.mp he with h1 | h1
          · exact habnf e h1
          · exact hsnf e h1
        simp only []
        cases hsc : collection.scaleStat rawStat size b.rnd with
        | error p =>
          simp only []
          refine ⟨hpre, h.1, h.2, ?_, by simp⟩
          rintro ⟨e, hmem, hf⟩
          rw [hnf e hmem] at hf; cases hf
        | ok stat =>
          simp only []
          refine ⟨hpre, h.1, h.2, ?_, fun _ _ => ⟨hfull, hnf⟩⟩
          rintro ⟨e, hmem, hf⟩
          rw [hnf e hmem] at hf; cases hf

/-! ## Theorems: decoding and scaling the statistics -/

theorem mapiterAux_map {α β : Type} (f : α → β) (n : Nat) (l : List α) (r : Rand) :
    mapiterAux n (l.map f) r = ((mapiterAux n l r).1.map f, (mapiterAux n l r).2) := by
  induction n generalizing l r with
  | zero => simp [mapiterAux]
  | succ n ih =>
    rw [mapiterAux, mapiterAux]
    simp only [List.length_map, ← List.map_drop]
    cases hd : l.drop (r 0 % l.length) with
    | nil => simp
    | cons x tl =>
      simp only [List.map_cons]
      have := ih (l.take (r 0 % l.length) ++ tl) r.tail
      rw [List.map_append, List.map_take] at this
      simp only [this]

theorem mapiter_map {α β : Type} (f : α → β) (l : List α) (r : Rand) :
    (mapiter (l.map f) r).1 = (mapiter l r).1.map f := by
  simp only [mapiter, List.length_map, mapiterAux_map]

theorem mapaccess_none_of_not_mem {α : Type} (m : GoMap α) (k : String)
    (h : k ∉ m.map Prod.fst) : mapaccess m k = none := by
  induction m with
  | nil => rfl
  | cons p rest ih =>
    obtain ⟨k', v⟩ := p
    simp only [List.map_cons, List.mem_cons, not_or] at h
    simp only [mapaccess, if_neg (Ne.symm h.1)]
    exact ih h.2

theorem mapaccess_eq_some_iff {α : Type} (m : GoMap α) (k : String) (v : α)
    (hnd : (m.map Prod.fst).Nodup) : mapaccess m k = some v ↔ (k, v) ∈ m := by
  induction m with
  | nil => simp [mapaccess]
  | cons p rest ih =>
    obtain ⟨k', v'⟩ := p
    simp only [List.map_cons, List.nodup_cons] at hnd
    simp only [mapaccess, List.mem_cons, Prod.mk.injEq]
    by_cases hk : k' = k
    · subst hk
      simp only [if_true, Option.some.injEq, true_and]
      constructor
      · intro h; exact Or.inl h.symm
      · rintro (h | h)
        · exact h.symm
        · exact absurd (List.mem_map_of_mem Prod.fst h) hnd.1
    · simp only [if_neg hk, ih hnd.2]
      constructor
      · intro h; exact Or.inr h
      · rintro (h | h)
        · exact absurd h.1.symm hk
        · exact h

theorem mapaccess_perm {α : Type} (m m' : GoMap α) (hp : m'.Perm m)
    (hnd : (m.map Prod.fst).Nodup) (k : String) : mapaccess m' k = mapaccess m k := by
  have hnd' : (m'.map Prod.fst).Nodup := (hp.map Prod.fst).nodup_iff.mpr hnd
  apply Option.ext
  intro v
  simp only [Option.mem_def]
  rw [mapaccess_eq_some_iff m' k v hnd', mapaccess_eq_some_iff m k v hnd, hp.mem_iff]

/-- The entry of the decoded reply that carries a 32-bit index size. -/
theorem indexSizesLoop_int32 (scale : ℚ) (I : List (String × Int)) (acc : GoMap ℚ)
    (hnd : (I.map Prod.fst).Nodup) :
    ∃ res, collection.indexSizesLoop scale (I.map fun p => (p.1, Value.int32 p.2)) acc =
        .ok res ∧
      ∀ name, mapaccess res name =
        match mapaccess I name with
        | some v => some ((v : ℚ) * scale)
        | none => mapaccess acc name := by
  induction I generalizing acc with
  | nil => exact ⟨acc, rfl, fun name => rfl⟩
  | cons p rest ih =>
    obtain ⟨k, v⟩ := p
    simp only [List.map_cons, List.nodup_cons] at hnd
    obtain ⟨res, hres, hlook⟩ := ih (mapassign acc k ((v : ℚ) * scale)) hnd.2
    refine ⟨res, ?_, ?_⟩
    · simp only [List.map_cons, collection.indexSizesLoop, collection.assertInt32]
      exact hres
    · intro name
      rw [hlook name, mapaccess_mapassign]
      by_cases hk : k = name
      · subst hk
        simp [mapaccess, mapaccess_none_of_not_mem rest k hnd.1]
      · simp [mapaccess, hk]

theorem assertInt32_error (x : Option Value) (h : ∀ v, x ≠ some (Value.int32 v)) :
    collection.assertInt32 x = .error "interface conversion: interface {} is not int32" := by
  cases x with
  | none => rfl
  | some size =>
    cases size with
    | int32 v => exact absurd rfl (h v)
    | _ => rfl

theorem indexSizesLoop_panics (scale : ℚ) (l : List (String × Value)) (acc : GoMap ℚ)
    (h : ∃ p ∈ l, ∀ v, p.2 ≠ Value.int32 v) :
    collection.indexSizesLoop scale l acc =
      .error "interface conversion: interface {} is not int32" := by
  induction l generalizing acc with
  | nil => simp at h
  | cons q rest ih =>
    obtain ⟨name, size⟩ := q
    rw [collection.indexSizesLoop]
    by_cases hs : ∃ v, size = Value.int32 v
    · obtain ⟨v, hv⟩ := hs
      subst hv
      simp only [collection.assertInt32]
      apply ih
      obtain ⟨p, hp, hne⟩ := h
      rcases List.mem_cons.mp hp with rfl | hp
      · exact absurd rfl (hne v)
      · exact ⟨p, hp, hne⟩
    · have : collection.assertInt32 (some size) =
          .error "interface conversion: interface {} is not int32" :=
        assertInt32_error _ (fun v hv => hs ⟨v, by simpa using hv⟩)
      simp only [this]

/-- Scaling of a reply whose sizes are all carried as 32-bit integers. -/
theorem scaleStat_int32 (rawStat : GoMap Value) (size : Nat) (r : Rand) (m : Int)
    (I : List (String × Int))
    (hm : mapaccess rawStat "storageSize" = some (Value.int32 m))
    (hI : mapaccess rawStat "indexSizes" =
      some (Value.map (I.map fun p => (p.1, Value.int32 p.2))))
    (hkeys : (I.map Prod.fst).Nodup) :
    ∃ stat, collection.scaleStat rawStat size r = .ok stat ∧
      stat.StorageSize = (m : ℚ) * ((size : ℚ) / 10000) ∧
      ∀ name, mapaccess stat.IndexesSize name =
        (mapaccess I name).map fun v => (v : ℚ) * ((size : ℚ) / 10000) := by
  have hperm := mapiter_perm I r
  have hnd' : ((mapiter I r).1.map Prod.fst).Nodup :=
    (hperm.map Prod.fst).nodup_iff.mpr hkeys
  obtain ⟨res, hres, hlook⟩ := indexSizesLoop_int32 ((size : ℚ) / 10000) (mapiter I r).1 [] hnd'
  refine ⟨⟨(m : ℚ) * ((size : ℚ) / 10000), res⟩, ?_, rfl, ?_⟩
  · simp only [collection.scaleStat, hm, hI, collection.assertInt32, collection.assertM,
      mapiter_map, collection.statCollectionSize]
    norm_num
    simp only [hres]
  · intro name
    rw [hlook name, mapaccess_perm I _ hperm hkeys name]
    cases mapaccess I name <;> simp [mapaccess]

theorem scaleStat_storageSize_not_int32 (rawStat : GoMap Value) (size : Nat) (r : Rand)
    (h : ∀ v, mapaccess rawStat "storageSize" ≠ some (Value.int32 v)) :
    collection.scaleStat rawStat size r =
      .error "interface conversion: interface {} is not int32" := by
  simp only [collection.scaleStat, assertInt32_error _ h]

theorem scaleStat_indexSize_not_int32 (rawStat : GoMap Value) (size : Nat) (r : Rand)
    (m : Int) (sizes : GoMap Value)
    (hm : mapaccess rawStat "storageSize" = some (Value.int32 m))
    (hI : mapaccess rawStat "indexSizes" = some (Value.map sizes))
    (h : ∃ p ∈ sizes, ∀ v, p.2 ≠ Value.int32 v) :
    collection.scaleStat rawStat size r =
      .error "interface conversion: interface {} is not int32" := by
  obtain ⟨p, hp, hne⟩ := h
  have hmem : p ∈ (mapiter sizes r).1 := (mapiter_perm sizes r).mem_iff.mpr hp
  simp only [collection.scaleStat, hm, hI, collection.assertInt32, collection.assertM,
    indexSizesLoop_panics _ _ _ ⟨p, hmem, hne⟩]

theorem genBatch_total (g : DocGenerator) (hg : TotalDoc g) (n : Nat) (r : Rand) :
    ∃ ds r', collection.genBatch g n r = .ok (ds, r') := by
  induction n generalizing r with
  | zero => exact ⟨[], r, rfl⟩
  | succ n ih =>
    obtain ⟨d, r1, hd⟩ := hg r
    obtain ⟨ds, r2, hds⟩ := ih r1
    exact ⟨Value.doc d :: ds, r2, by rw [collection.genBatch]; simp only [hd, hds]⟩

theorem fillLoop_ok (c : collection.Collection) (db : Database)
    (hg : TotalDoc c.generateDoc) (hdb : ∀ hist op, (db hist op).Err = none) (n : Nat)
    (hist : List Event) (r : Rand) : (collection.fillLoop c db n hist r).out = .ok () := by
  induction n generalizing hist r with
  | zero => rfl
  | succ n ih =>
    obtain ⟨ds, r1, hds⟩ := genBatch_total c.generateDoc hg 1000 r
    rw [collection.fillLoop]
    simp only [hds, hdb]
    exact ih _ _

theorem createIndexes_ok (db : Database) (hdb : ∀ hist op, (db hist op).Err = none)
    (collName : String) (idxs : List (String × schema.Index)) (hist : List Event) (r : Rand) :
    (collection.createIndexes db collName idxs hist r).out = .ok () := by
  induction idxs generalizing hist r with
  | nil => rfl
  | cons p rest ih =>
    obtain ⟨name, index⟩ := p
    rw [collection.createIndexes]
    simp only [hdb]
    exact ih _ _

/-- A store that answers every request without error, and `collStats` with
`reply`, lets the three stages of `Stat` succeed when documents can always be
generated. -/
theorem stages_ok (c : collection.Collection) (db : Database) (reply : GoMap Value)
    (hg : TotalDoc c.generateDoc)
    (hdb : ∀ hist op, db hist op = ⟨none, .ok reply⟩) (hist : List Event) (r : Rand) :
    (c.create db hist r).out = .ok () ∧
    (∀ hist2 r2, (c.fill db hist2 r2).out = .ok ()) ∧
    (∀ hist3, (c.collectStat db hist3).2 = .ok reply) := by
  have hErr : ∀ hist op, (db hist op).Err = none := fun h o => by rw [hdb]
  refine ⟨?_, fun hist2 r2 => fillLoop_ok c db hg hErr _ hist2 r2, ?_⟩
  · simp only [collection.Collection.create, hErr]
    exact createIndexes_ok db hErr _ _ _ _
  · intro hist3
    simp only [collection.Collection.collectStat, hdb]

/-- The outcome of `Stat` once its three stages have succeeded: lines 65-76. -/
theorem Stat_after_stages (c : collection.Collection) (db : Database) (size : Nat)
    (hist : List Event) (r : Rand) (rawStat : GoMap Value)
    (hcreate : (c.create db hist r).out = .ok ())
    (hfill : (c.fill db (hist ++ (c.create db hist r).trace) (c.create db hist r).rnd).out =
      .ok ())
    (hstat : (c.collectStat db (hist ++ (c.create db hist r).trace ++
      (c.fill db (hist ++ (c.create db hist r).trace) (c.create db hist r).rnd).trace)).2 =
        .ok rawStat) :
    (c.Stat db size hist r).2 =
      match collection.scaleStat rawStat size
        (c.fill db (hist ++ (c.create db hist r).trace) (c.create db hist r).rnd).rnd with
      | .error p => .panic p
      | .ok stat => .ok stat := by
  simp only [collection.Collection.Stat, hcreate, hfill, hstat]
  cases collection.scaleStat rawStat size
    (c.fill db (hist ++ (c.create db hist r).trace) (c.create db hist r).rnd).rnd <;> rfl

/-- The scaling rule on replies that carry 32-bit sizes.  When create, fill
and collectStat succeed and the reply carries storageSize `m` and every index
size of `I` as 32-bit integers, `Stat` returns StorageSize = m * (size / 10000)
and an IndexesSize map with exactly the index names of `I`, each size
multiplied by size / 10000, in exact rational arithmetic.  In particular
m = 1000 gives 2000 at size 20000 and 500 at size 5000, and size 50000 gives
5 * m. -/
theorem stat_scaling_int32 (c : collection.Collection) (db : Database) (size : Nat)
    (hist : List Event) (r : Rand) (rawStat : GoMap Value) (m : Int)
    (I : List (String × Int))
    (hcreate : (c.create db hist r).out = .ok ())
    (hfill : (c.fill db (hist ++ (c.create db hist r).trace) (c.create db hist r).rnd).out =
      .ok ())
    (hstat : (c.collectStat db (hist ++ (c.create db hist r).trace ++
      (c.fill db (hist ++ (c.create db hist r).trace) (c.create db hist r).rnd).trace)).2 =
        .ok rawStat)
    (hm : mapaccess rawStat "storageSize" = some (Value.int32 m))
    (hI : mapaccess rawStat "indexSizes" =
      some (Value.map (I.map fun p => (p.1, Value.int32 p.2))))
    (hkeys : (I.map Prod.fst).Nodup) :
    ∃ stat, (c.Stat db size hist r).2 = .ok stat ∧
      stat.StorageSize = (m : ℚ) * ((size : ℚ) / 10000) ∧
      (∀ name, mapaccess stat.IndexesSize name =
        (mapaccess I name).map fun v => (v : ℚ) * ((size : ℚ) / 10000)) ∧
      (m = 1000 → size = 20000 → stat.StorageSize = 2000) ∧
      (m = 1000 → size = 5000 → stat.StorageSize = 500) ∧
      (size = 50000 → stat.StorageSize = 5 * (m : ℚ)) := by
  obtain ⟨stat, hs, h1, h2⟩ := scaleStat_int32 rawStat size
    (c.fill db (hist ++ (c.create db hist r).trace) (c.create db hist r).rnd).rnd m I hm hI hkeys
  refine ⟨stat, ?_, h1, h2, ?_, ?_, ?_⟩
  · rw [Stat_after_stages c db size hist r rawStat hcreate hfill hstat, hs]
  · intro hm1 hs1; rw [h1, hm1, hs1]; norm_num
  · intro hm1 hs1; rw [h1, hm1, hs1]; norm_num
  · intro hs1; rw [h1, hs1]; push_cast; ring

theorem orders_generateDoc_total (c : collection.Collection)
    (hc : collection.New 0 "orders" ordersSchema = .ok c) : TotalDoc c.generateDoc := by
  have hgd : ordersSchema.GetDocGenerator 0 = .ok c.generateDoc := by
    simp only [collection.New] at hc
    cases hg : ordersSchema.GetDocGenerator 0 with
    | error e => simp [hg] at hc
    | ok g =>
      simp only [hg, Except.ok.injEq] at hc
      rw [← hc]
  exact GetDocGenerator_total 0 ordersSchema c.generateDoc hgd (by decide)

/-- The scaling rule at the end-to-end scenario: a measured storage size of
1000 and one index of measured size 300, at target count 50000. -/
theorem stat_scaling_int32_orders :
    ∃ c, collection.New 0 "orders" ordersSchema = .ok c ∧
      ∃ stat, (c.Stat (replyingStore [("storageSize", Value.int32 1000),
          ("indexSizes", Value.map [("_id_", Value.int32 300)])]) 50000 [] (fun _ => 0)).2 =
            .ok stat ∧
        stat.StorageSize = 5000 ∧ mapaccess stat.IndexesSize "_id_" = some 1500 ∧
        mapaccess stat.IndexesSize "other" = none := by
  obtain ⟨c, hc⟩ : ∃ c, collection.New 0 "orders" ordersSchema = .ok c := ⟨_, rfl⟩
  have hst := stages_ok c (replyingStore [("storageSize", Value.int32 1000),
    ("indexSizes", Value.map [("_id_", Value.int32 300)])]) _
    (orders_generateDoc_total c hc) (fun _ _ => rfl) [] (fun _ => 0)
  obtain ⟨stat, h0, h1, h2, _, _, h5⟩ := stat_scaling_int32 c
    (replyingStore [("storageSize", Value.int32 1000),
      ("indexSizes", Value.map [("_id_", Value.int32 300)])]) 50000 [] (fun _ => 0)
    [("storageSize", Value.int32 1000), ("indexSizes", Value.map [("_id_", Value.int32 300)])]
    1000 [("_id_", 300)] hst.1 (hst.2.1 _ _) (hst.2.2 _) rfl rfl (by decide)
  refine ⟨c, hc, stat, h0, ?_, ?_, ?_⟩
  · rw [h5 rfl]; norm_num
  · rw [h2]; simp [mapaccess]; norm_num
  · rw [h2]; simp [mapaccess]

/-- C1: the code at the failing input.  With a measured index size of 2^31,
which the reply can only carry as a 64-bit integer, create, fill and
collectStat succeed and `Stat` panics in the type assertion of line 73
instead of returning the scaled sizes. -/
theorem stat_panics_on_int64_index_size :
    ∃ c, collection.New 0 "orders" ordersSchema = .ok c ∧
      ((c.create (replyingStore [("storageSize", Value.int32 1000),
          ("indexSizes", Value.map [("_id_", Value.int64 2147483648)])]) [] (fun _ => 0)).out =
            .ok ()) ∧
      (c.Stat (replyingStore [("storageSize", Value.int32 1000),
          ("indexSizes", Value.map [("_id_", Value.int64 2147483648)])]) 50000 []
            (fun _ => 0)).2 =
        .panic "interface conversion: interface {} is not int32" := by
  obtain ⟨c, hc⟩ : ∃ c, collection.New 0 "orders" ordersSchema = .ok c := ⟨_, rfl⟩
  have hst := stages_ok c (replyingStore [("storageSize", Value.int32 1000),
    ("indexSizes", Value.map [("_id_", Value.int64 2147483648)])]) _
    (orders_generateDoc_total c hc) (fun _ _ => rfl) [] (fun _ => 0)
  refine ⟨c, hc, hst.1, ?_⟩
  rw [Stat_after_stages c _ 50000 [] (fun _ => 0) _ hst.1 (hst.2.1 _ _) (hst.2.2 _),
    scaleStat_indexSize_not_int32 [("storageSize", Value.int32 1000),
      ("indexSizes", Value.map [("_id_", Value.int64 2147483648)])] _ _ 1000
      [("_id_", Value.int64 2147483648)] rfl rfl
      ⟨_, List.mem_singleton.mpr rfl, fun v h => by cases h⟩]

/-- C10: the code at the failing input.  For a reply whose storageSize is the
64-bit integer 2^31, create, fill and collectStat succeed and `Stat` panics in
the type assertion of line 68: it returns neither a `Stat` nor an error. -/
theorem stat_panics_on_int64_storageSize (r : Rand) :
    ∃ c, collection.New 0 "orders" ordersSchema = .ok c ∧
      (c.Stat (replyingStore [("storageSize", Value.int64 2147483648),
          ("indexSizes", Value.map [])]) 50000 [] r).2 =
        .panic "interface conversion: interface {} is not int32" := by
  obtain ⟨c, hc⟩ : ∃ c, collection.New 0 "orders" ordersSchema = .ok c := ⟨_, rfl⟩
  have hst := stages_ok c (replyingStore [("storageSize", Value.int64 2147483648),
    ("indexSizes", Value.map [])]) _ (orders_generateDoc_total c hc) (fun _ _ => rfl) [] r
  refine ⟨c, hc, ?_⟩
  rw [Stat_after_stages c _ 50000 [] r _ hst.1 (hst.2.1 _ _) (hst.2.2 _),
    scaleStat_storageSize_not_int32 _ _ _ (fun v h => by
      simp [mapaccess] at h)]

/-! ## Theorems: what the pipeline issues, and how far it gets -/

theorem mem_dropLast_cons {α : Type} (e x : α) (l : List α) (h : x ∈ (e :: l).dropLast) :
    x = e ∨ x ∈ l.dropLast := by
  cases l with
  | nil => simp at h
  | cons a l =>
    rw [List.dropLast_cons₂] at h
    exact List.mem_cons.mp h

theorem mem_dropLast_append {α : Type} (ta tb : List α) (x : α)
    (h : x ∈ (ta ++ tb).dropLast) :
    (tb = [] ∧ x ∈ ta.dropLast) ∨ (tb ≠ [] ∧ (x ∈ ta ∨ x ∈ tb.dropLast)) := by
  by_cases hb : tb = []
  · subst hb
    simp only [List.append_nil] at h
    exact Or.inl ⟨rfl, h⟩
  · rw [List.dropLast_append_of_ne_nil _ hb] at h
    exact Or.inr ⟨hb, List.mem_append.mp h⟩

theorem mem_dropLast_or_getLast {α : Type} (l : List α) (x : α) (h : x ∈ l) :
    x ∈ l.dropLast ∨ l.getLast? = some x := by
  induction l with
  | nil => simp at h
  | cons a l ih =>
    cases l with
    | nil =>
      simp only [List.mem_singleton] at h
      subst h
      exact Or.inr rfl
    | cons b l =>
      rw [List.dropLast_cons₂]
      rcases List.mem_cons.mp h with rfl | h
      · exact Or.inl (List.mem_cons_self _ _)
      · rcases ih h with h1 | h1
        · exact Or.inl (List.mem_cons_of_mem _ h1)
        · right
          rw [List.getLast?_cons_cons]
          exact h1

theorem Faithful_append (db : Database) (hist ta tb : List Event) :
    Faithful db hist (ta ++ tb) ↔ Faithful db hist ta ∧ Faithful db (hist ++ ta) tb := by
  induction ta generalizing hist with
  | nil => simp [Faithful]
  | cons e rest ih =>
    show Faithful db hist (e :: (rest ++ tb)) ↔ _
    simp only [Faithful]
    rw [ih]
    simp only [List.append_assoc, List.singleton_append, and_assoc]

theorem Faithful_no_failure (db : Database) (hdb : ∀ hist op, (db hist op).Err = none)
    (hist trace : List Event) (h : Faithful db hist trace) : ∀ e ∈ trace, e.failed = false := by
  induction trace generalizing hist with
  | nil => intro e he; simp at he
  | cons a rest ih =>
    intro e he
    simp only [Faithful] at h
    rcases List.mem_cons.mp he with rfl | he
    · rw [h.1, hdb]; rfl
    · exact ih _ h.2 e he

theorem indexNames_append (ta tb : List Event) :
    indexNames (ta ++ tb) = indexNames ta ++ indexNames tb := by
  simp [indexNames, List.filterMap_append]

theorem indexNames_nil_of_kind (trace : List Event)
    (h : ∀ e ∈ trace, e.kind ≠ Kind.createIndex) : indexNames trace = [] := by
  induction trace with
  | nil => rfl
  | cons e rest ih =>
    have he := h e (List.mem_cons_self _ _)
    have hrest := ih (fun x hx => h x (List.mem_cons_of_mem _ hx))
    obtain ⟨op, f⟩ := e
    cases op with
    | createOne coll keys name unique pfe => simp [Event.kind, Op.kind] at he
    | _ => simpa [indexNames, Op.indexName] using hrest

/-- The index loop of `create`: flags record the store's answers, only the
last request can have failed, the loop either completes or stops at a failed
request, and the requests are the given indexes in the given order. -/
theorem createIndexes_run (db : Database) (collName : String)
    (idxs : List (String × schema.Index)) (hist : List Event) (r : Rand) :
    Faithful db hist (collection.createIndexes db collName idxs hist r).trace ∧
    (∀ e ∈ (collection.createIndexes db collName idxs hist r).trace.dropLast,
      e.failed = false) ∧
    ((collection.createIndexes db collName idxs hist r).out = .ok () ∨
      ∃ e ∈ (collection.createIndexes db collName idxs hist r).trace, e.failed = true) ∧
    (∀ e ∈ (collection.createIndexes db collName idxs hist r).trace,
      ∃ name index pfe, (name, index) ∈ idxs ∧ pfe.Perm index.PartialFilterExpression ∧
        e.op = Op.createOne collName index.Parts name index.Unique pfe) ∧
    (indexNames (collection.createIndexes db collName idxs hist r).trace <+:
      idxs.map Prod.fst) ∧
    ((collection.createIndexes db collName idxs hist r).out = .ok () →
      indexNames (collection.createIndexes db collName idxs hist r).trace =
        idxs.map Prod.fst) := by
  induction idxs generalizing hist r with
  | nil =>
    simp only [collection.createIndexes]
    exact ⟨trivial, by simp, by simp, by simp, by simp [indexNames], fun _ => rfl⟩
  | cons p rest ih =>
    obtain ⟨name, index⟩ := p
    rw [collection.createIndexes]
    simp only
    split
    · rename_i e he
      refine ⟨?_, by simp, Or.inr ⟨_, List.mem_singleton.mpr rfl, rfl⟩, ?_, ?_, by simp⟩
      · simp [Faithful, he]
      · intro x hx
        rw [List.mem_singleton.mp hx]
        exact ⟨name, index, _, List.mem_cons_self _ _, mapiter_perm _ _, rfl⟩
      · simp [indexNames, Op.indexName]
    · rename_i he
      obtain ⟨h1, h2, h3, h4, h5, h6⟩ :=
        ih (hist ++ [⟨Op.createOne collName index.Parts name index.Unique
          (mapiter index.PartialFilterExpression r).1, false⟩])
          (mapiter index.PartialFilterExpression r).2
      refine ⟨?_, ?_, ?_, ?_, ?_, ?_⟩
      · simp only [Faithful, he]
        exact ⟨rfl, h1⟩
      · intro x hx
        rcases mem_dropLast_cons _ _ _ hx with rfl | hx
        · rfl
        · exact h2 x hx
      · rcases h3 with h3 | ⟨x, hx, hf⟩
        · exact Or.inl h3
        · exact Or.inr ⟨x, List.mem_cons_of_mem _ hx, hf⟩
      · intro x hx
        rcases List.mem_cons.mp hx with rfl | hx
        · exact ⟨name, index, _, List.mem_cons_self _ _, mapiter_perm _ _, rfl⟩
        · obtain ⟨n, i, pfe, hm, hp, ho⟩ := h4 x hx
          exact ⟨n, i, pfe, List.mem_cons_of_mem _ hm, hp, ho⟩
      · simp only [indexNames, List.filterMap_cons, Op.indexName, List.map_cons]
        exact List.cons_prefix_cons.mpr ⟨rfl, h5⟩
      · intro hok
        simp only [indexNames, List.filterMap_cons, Op.indexName, List.map_cons]
        rw [← h6 hok]
        rfl

/-- The stage `create`, in the same terms. -/
theorem create_run (c : collection.Collection) (db : Database) (hist : List Event) (r : Rand) :
    Faithful db hist (c.create db hist r).trace ∧
    (∀ e ∈ (c.create db hist r).trace.dropLast, e.failed = false) ∧
    ((c.create db hist r).out = .ok () ∨ ∃ e ∈ (c.create db hist r).trace, e.failed = true) ∧
    (∀ e ∈ (c.create db hist r).trace, intendedOp c e.op) ∧
    (indexNames (c.create db hist r).trace <+: (mapiter c.indexes r).1.map Prod.fst) ∧
    ((c.create db hist r).out = .ok () →
      indexNames (c.create db hist r).trace = (mapiter c.indexes r).1.map Prod.fst) := by
  simp only [collection.Collection.create]
  split
  · rename_i e he
    refine ⟨?_, by simp, Or.inr ⟨_, List.mem_singleton.mpr rfl, rfl⟩, ?_, ?_, by simp⟩
    · simp [Faithful, he]
    · intro x hx
      rw [List.mem_singleton.mp hx]
      simp [intendedOp]
    · simp [indexNames, Op.indexName]
  · rename_i he
    obtain ⟨h1, h2, h3, h4, h5, h6⟩ := createIndexes_run db c.Name (mapiter c.indexes r).1
      (hist ++ [⟨Op.createCollection c.Name, false⟩]) (mapiter c.indexes r).2
    refine ⟨?_, ?_, ?_, ?_, ?_, ?_⟩
    · simp only [Faithful, he]
      exact ⟨rfl, h1⟩
    · intro x hx
      rcases mem_dropLast_cons _ _ _ hx with rfl | hx
      · rfl
      · exact h2 x hx
    · rcases h3 with h3 | ⟨x, hx, hf⟩
      · exact Or.inl h3
      · exact Or.inr ⟨x, List.mem_cons_of_mem _ hx, hf⟩
    · intro x hx
      rcases List.mem_cons.mp hx with rfl | hx
      · simp [intendedOp]
      · obtain ⟨n, i, pfe, hm, hp, ho⟩ := h4 x hx
        rw [ho]
        exact ⟨rfl, i, (mapiter_perm c.indexes r).mem_iff.mp hm, rfl, rfl, hp⟩
    · simpa [indexNames, Op.indexName] using h5
    · intro hok
      simpa [indexNames, Op.indexName] using h6 hok

theorem genBatch_ok (g : DocGenerator) (n : Nat) (r : Rand) (ds : List Value) (r' : Rand)
    (h : collection.genBatch g n r = .ok (ds, r')) :
    ds.length = n ∧ ∀ d ∈ ds, ∃ fs r1 r2, d = Value.doc fs ∧ g r1 = .ok (fs, r2) := by
  induction n generalizing r ds r' with
  | zero =>
    simp only [collection.genBatch, Except.ok.injEq, Prod.mk.injEq] at h
    rw [← h.1]; simp
  | succ n ih =>
    rw [collection.genBatch] at h
    cases hg : g r with
    | error e => simp [hg] at h
    | ok p =>
      obtain ⟨d, r1⟩ := p
      simp only [hg] at h
      cases hrest : collection.genBatch g n r1 with
      | error e => simp [hrest] at h
      | ok q =>
        obtain ⟨ds2, r2⟩ := q
        simp only [hrest, Except.ok.injEq, Prod.mk.injEq] at h
        obtain ⟨hl, hall⟩ := ih r1 ds2 r2 hrest
        rw [← h.1]
        refine ⟨by simp [hl], ?_⟩
        intro x hx
        rcases List.mem_cons.mp hx with rfl | hx
        · exact ⟨d, r, r1, rfl, hg⟩
        · exact hall x hx

theorem genBatch_error (g : DocGenerator) (n : Nat) (r : Rand) (p : String)
    (h : collection.genBatch g n r = .error p) : ∃ r1, g r1 = .error p := by
  induction n generalizing r with
  | zero => simp [collection.genBatch] at h
  | succ n ih =>
    rw [collection.genBatch] at h
    cases hg : g r with
    | error e =>
      simp only [hg, Except.error.injEq] at h
      exact ⟨r, by rw [hg, h]⟩
    | ok q =>
      obtain ⟨d, r1⟩ := q
      simp only [hg] at h
      cases hrest : collection.genBatch g n r1 with
      | error e =>
        simp only [hrest, Except.error.injEq] at h
        exact ih r1 (by rw [hrest, h])
      | ok q2 =>
        obtain ⟨ds2, r2⟩ := q2
        simp [hrest] at h

/-- The batch loop of `fill`, in the same terms: it completes, stops at a
failed insert, or panics because a document generation panicked. -/
theorem fillLoop_run (c : collection.Collection) (db : Database) (n : Nat)
    (hist : List Event) (r : Rand) :
    Faithful db hist (collection.fillLoop c db n hist r).trace ∧
    (∀ e ∈ (collection.fillLoop c db n hist r).trace.dropLast, e.failed = false) ∧
    ((collection.fillLoop c db n hist r).out = .ok () ∨
      (∃ e ∈ (collection.fillLoop c db n hist r).trace, e.failed = true) ∨
      ∃ p r1, (collection.fillLoop c db n hist r).out = .panic p ∧
        c.generateDoc r1 = .error p) ∧
    (∀ e ∈ (collection.fillLoop c db n hist r).trace, intendedOp c e.op) := by
  induction n generalizing hist r with
  | zero =>
    simp only [collection.fillLoop]
    exact ⟨trivial, by simp, by simp, by simp⟩
  | succ n ih =>
    rw [collection.fillLoop]
    split
    · rename_i p hp
      obtain ⟨r1, hr1⟩ := genBatch_error _ _ _ _ hp
      exact ⟨trivial, by simp, Or.inr (Or.inr ⟨p, r1, rfl, hr1⟩), by simp⟩
    · rename_i batch r1 hb
      obtain ⟨hlen, hdocs⟩ := genBatch_ok _ _ _ _ _ hb
      have hop : intendedOp c (Op.insertMany c.Name batch) := ⟨rfl, hlen, hdocs⟩
      simp only
      split
      · rename_i e he
        refine ⟨?_, by simp, Or.inr (Or.inl ⟨_, List.mem_singleton.mpr rfl, rfl⟩), ?_⟩
        · simp [Faithful, he]
        · intro x hx
          rw [List.mem_singleton.mp hx]
          exact hop
      · rename_i he
        obtain ⟨h1, h2, h3, h4⟩ := ih (hist ++ [⟨Op.insertMany c.Name batch, false⟩]) r1
        refine ⟨?_, ?_, ?_, ?_⟩
        · simp only [Faithful, he]
          exact ⟨rfl, h1⟩
        · intro x hx
          rcases mem_dropLast_cons _ _ _ hx with rfl | hx
          · rfl
          · exact h2 x hx
        · rcases h3 with h3 | ⟨x, hx, hf⟩ | h3
          · exact Or.inl h3
          · exact Or.inr (Or.inl ⟨x, List.mem_cons_of_mem _ hx, hf⟩)
          · exact Or.inr (Or.inr h3)
        · intro x hx
          rcases List.mem_cons.mp hx with rfl | hx
          · exact hop
          · exact h4 x hx

/-- The stage `collectStat`, in the same terms: all three commands are
issued unless one of them failed. -/
theorem collectStat_run (c : collection.Collection) (db : Database) (hist : List Event) :
    Faithful db hist (c.collectStat db hist).1 ∧
    (∀ e ∈ (c.collectStat db hist).1.dropLast, e.failed = false) ∧
    ((c.collectStat db hist).1.map Event.kind =
        [Kind.validate, Kind.reIndex, Kind.collStats] ∨
      ∃ e ∈ (c.collectStat db hist).1, e.failed = true) ∧
    (∀ e ∈ (c.collectStat db hist).1, intendedOp c e.op) := by
  simp only [collection.Collection.collectStat]
  split
  · rename_i e1 h1
    refine ⟨?_, by simp, Or.inr ⟨_, List.mem_singleton.mpr rfl, rfl⟩, ?_⟩
    · simp only [Faithful, h1, Option.isSome_some, and_self]
    · intro x hx
      rw [List.mem_singleton.mp hx]
      exact Or.inl rfl
  · rename_i h1
    split
    · rename_i e2 h2
      refine ⟨?_, ?_, Or.inr ⟨_, List.mem_cons_of_mem _ (List.mem_singleton.mpr rfl), rfl⟩, ?_⟩
      · simp only [Faithful, h1, h2, Option.isSome_some, Option.isSome_none, and_self]
      · intro x hx
        simp only [List.dropLast, List.mem_singleton] at hx
        rw [hx]
      · intro x hx
        simp only [List.mem_cons, List.mem_singleton, List.not_mem_nil, or_false] at hx
        rcases hx with rfl | rfl
        · exact Or.inl rfl
        · exact Or.inr (Or.inl rfl)
    · rename_i h2
      have hall : ∀ (f : Bool) (x : Event),
          x ∈ [(⟨Op.runCommand [("validate", Value.str c.Name.toList),
                ("full", Value.bool true)], false⟩ : Event),
              ⟨Op.runCommand [("reIndex", Value.str c.Name.toList)], false⟩,
              ⟨Op.runCommand [("collStats", Value.str c.Name.toList)], f⟩] →
            intendedOp c x.op := by
        intro f x hx
        simp only [List.mem_cons, List.mem_singleton, List.not_mem_nil, or_false] at hx
        rcases hx with rfl | rfl | rfl
        · exact Or.inl rfl
        · exact Or.inr (Or.inl rfl)
        · exact Or.inr (Or.inr rfl)
      have hdrop : ∀ (f : Bool) (x : Event),
          x ∈ [(⟨Op.runCommand [("validate", Value.str c.Name.toList),
                ("full", Value.bool true)], false⟩ : Event),
              ⟨Op.runCommand [("reIndex", Value.str c.Name.toList)], false⟩,
              ⟨Op.runCommand [("collStats", Value.str c.Name.toList)], f⟩].dropLast →
            x.failed = false := by
        intro f x hx
        simp only [List.dropLast, List.mem_cons, List.mem_singleton, List.not_mem_nil,
          or_false] at hx
        rcases hx with rfl | rfl <;> rfl
      have hf : ∀ (f : Bool), f = ((db (hist ++ [⟨Op.runCommand [("validate",
            Value.str c.Name.toList), ("full", Value.bool true)], false⟩,
            ⟨Op.runCommand [("reIndex", Value.str c.Name.toList)], false⟩])
            (Op.runCommand [("collStats", Value.str c.Name.toList)])).Err).isSome →
          Faithful db hist [(⟨Op.runCommand [("validate", Value.str c.Name.toList),
                ("full", Value.bool true)], false⟩ : Event),
              ⟨Op.runCommand [("reIndex", Value.str c.Name.toList)], false⟩,
              ⟨Op.runCommand [("collStats", Value.str c.Name.toList)], f⟩] := by
        intro f hf
        simp only [Faithful, h1, h2, Option.isSome_none, List.append_assoc,
          List.singleton_append, and_true, true_and]
        exact hf
      split
      · rename_i e3 h3
        exact ⟨hf true (by rw [h3]; rfl), hdrop true,
          Or.inr ⟨_, List.mem_cons_of_mem _ (List.mem_cons_of_mem _
            (List.mem_singleton.mpr rfl)), rfl⟩, hall true⟩
      · rename_i h3
        split
        · exact ⟨hf false (by rw [h3]; rfl), hdrop false,
            Or.inl (by simp [Event.kind, Op.kind]), hall false⟩
        · exact ⟨hf false (by rw [h3]; rfl), hdrop false,
            Or.inl (by simp [Event.kind, Op.kind]), hall false⟩

theorem fill_run (c : collection.Collection) (db : Database) (hist : List Event) (r : Rand) :
    Faithful db hist (c.fill db hist r).trace ∧
    (∀ e ∈ (c.fill db hist r).trace.dropLast, e.failed = false) ∧
    ((c.fill db hist r).out = .ok () ∨
      (∃ e ∈ (c.fill db hist r).trace, e.failed = true) ∨
      ∃ p r1, (c.fill db hist r).out = .panic p ∧ c.generateDoc r1 = .error p) ∧
    (∀ e ∈ (c.fill db hist r).trace, intendedOp c e.op) :=
  fillLoop_run c db (collection.statCollectionSize / 1000) hist r

/-- Facts about a trace made of the traces of consecutive stages. -/
theorem staged_trace (db : Database) (hist ta tb : List Event)
    (fa : Faithful db hist ta) (fb : Faithful db (hist ++ ta) tb)
    (da : ∀ e ∈ ta.dropLast, e.failed = false) (db' : ∀ e ∈ tb.dropLast, e.failed = false)
    (na : tb ≠ [] → ∀ e ∈ ta, e.failed = false) :
    Faithful db hist (ta ++ tb) ∧ ∀ e ∈ (ta ++ tb).dropLast, e.failed = false := by
  refine ⟨(Faithful_append db hist ta tb).mpr ⟨fa, fb⟩, ?_⟩
  intro e he
  rcases mem_dropLast_append ta tb e he with ⟨_, h⟩ | ⟨hne, h | h⟩
  · exact da e h
  · exact na hne e h
  · exact db' e h

/-- Lower bounds on the trace of `Stat`: every request is one the pipeline
is meant to send, the created indexes are the declared ones in one order, the
flags are the store's answers, only the last request can have failed, and
when no request failed the whole pipeline was issued unless a document
generation panicked. -/
theorem stat_trace_progress (c : collection.Collection) (db : Database) (size : Nat)
    (hist : List Event) (r : Rand) :
    (∀ e ∈ (c.Stat db size hist r).1, intendedOp c e.op) ∧
    (∃ order : List (String × schema.Index), order.Perm c.indexes ∧
      indexNames (c.Stat db size hist r).1 <+: order.map Prod.fst ∧
      ((∃ e ∈ (c.Stat db size hist r).1,
          e.kind ≠ Kind.createCollection ∧ e.kind ≠ Kind.createIndex) →
        indexNames (c.Stat db size hist r).1 = order.map Prod.fst)) ∧
    Faithful db hist (c.Stat db size hist r).1 ∧
    (∀ e ∈ (c.Stat db size hist r).1.dropLast, e.failed = false) ∧
    ((∀ e ∈ (c.Stat db size hist r).1, e.failed = false) →
      (c.Stat db size hist r).1.map Event.kind = expectedKinds c.indexes.length ∨
      ∃ p r1, (c.Stat db size hist r).2 = .panic p ∧ c.generateDoc r1 = .error p) := by
  simp only [collection.Collection.Stat]
  have hperm := mapiter_perm c.indexes r
  have ha := create_failFast c db hist r
  have hap := create_no_panic c db hist r
  obtain ⟨fa, da, pa, ia, na, nea⟩ := create_run c db hist r
  generalize c.create db hist r = a at ha hap fa da pa ia na nea ⊢
  have hb := fill_failFast c db (hist ++ a.trace) a.rnd
  obtain ⟨fb, dbl, pb, ib⟩ := fill_run c db (hist ++ a.trace) a.rnd
  generalize c.fill db (hist ++ a.trace) a.rnd = b at hb fb dbl pb ib ⊢
  have hs := collectStat_failFast c db (hist ++ a.trace ++ b.trace)
  have hsp := collectStat_no_panic c db (hist ++ a.trace ++ b.trace)
  obtain ⟨fs, ds, ps, is⟩ := collectStat_run c db (hist ++ a.trace ++ b.trace)
  generalize c.collectStat db (hist ++ a.trace ++ b.trace) = s at hs hsp fs ds ps is ⊢
  have ka : ∀ e ∈ a.trace, e.kind = Kind.createCollection ∨ e.kind = Kind.createIndex :=
    fun e he => kind_create_part _ _ (failFast_kind_mem ha e he)
  have kb : ∀ e ∈ b.trace, e.kind = Kind.insert :=
    fun e he => kind_insert_part _ _ (failFast_kind_mem hb e he)
  have ks : ∀ e ∈ s.1, e.kind = Kind.validate ∨ e.kind = Kind.reIndex ∨
      e.kind = Kind.collStats :=
    fun e he => kind_stat_part _ (failFast_kind_mem hs e he)
  have nb : indexNames b.trace = [] :=
    indexNames_nil_of_kind _ (fun e he => by rw [kb e he]; simp)
  have ns : indexNames s.1 = [] :=
    indexNames_nil_of_kind _ (fun e he => by
      rcases ks e he with h | h | h <;> rw [h] <;> simp)
  cases hao : a.out with
  | panic p => exact absurd hao (hap p)
  | err e =>
    simp only []
    refine ⟨ia, ⟨_, hperm, na, ?_⟩, fa, da, ?_⟩
    · rintro ⟨x, hx, h1, h2⟩
      rcases ka x hx with h | h
      · exact absurd h h1
      · exact absurd h h2
    · intro hnf
      rcases pa with h | ⟨x, hx, hf⟩
      · rw [hao] at h; cases h
      · rw [hnf x hx] at hf; cases hf
  | ok u =>
    have hafull := ha.2.2 u hao
    have hanf := failFast_ok_no_failure ha u hao
    have hnames := nea (by rw [hao])
    have hab := staged_trace db hist a.trace b.trace fa fb da dbl (fun _ => hanf)
    have iab : ∀ e ∈ a.trace ++ b.trace, intendedOp c e.op := by
      intro e he
      rcases List.mem_append.mp he with h | h
      · exact ia e h
      · exact ib e h
    have nab : indexNames (a.trace ++ b.trace) = (mapiter c.indexes r).1.map Prod.fst := by
      rw [indexNames_append, nb, List.append_nil, hnames]
    simp only []
    cases hbo : b.out with
    | panic p =>
      simp only []
      refine ⟨iab, ⟨_, hperm, by rw [nab], fun _ => nab⟩, hab.1, hab.2, ?_⟩
      intro hnf
      right
      rcases pb with h | ⟨x, hx, hf⟩ | ⟨p', r1, hp', hg⟩
      · rw [hbo] at h; cases h
      · rw [hnf x (List.mem_append_right _ hx)] at hf; cases hf
      · rw [hbo] at hp'
        simp only [Outcome.panic.injEq] at hp'
        exact ⟨p, r1, rfl, by rw [hp']; exact hg⟩
    | err e =>
      simp only []
      refine ⟨iab, ⟨_, hperm, by rw [nab], fun _ => nab⟩, hab.1, hab.2, ?_⟩
      intro hnf
      rcases pb with h | ⟨x, hx, hf⟩ | ⟨p', r1, hp', hg⟩
      · rw [hbo] at h; cases h
      · rw [hnf x (List.mem_append_right _ hx)] at hf; cases hf
      · rw [hbo] at hp'; cases hp'
    | ok u2 =>
      have hbfull := hb.2.2 u2 hbo
      have hbnf := failFast_ok_no_failure hb u2 hbo
      have habnf : ∀ e ∈ a.trace ++ b.trace, e.failed = false := by
        intro e he
        rcases List.mem_append.mp he with h1 | h1
        · exact hanf e h1
        · exact hbnf e h1
      have habs := staged_trace db hist (a.trace ++ b.trace) s.1 hab.1
        (by rw [← List.append_assoc]; exact fs) hab.2 ds (fun _ => habnf)
      have iabs : ∀ e ∈ a.trace ++ b.trace ++ s.1, intendedOp c e.op := by
        intro e he
        rcases List.mem_append.mp he with h | h
        · exact iab e h
        · exact is e h
      have nabs : indexNames (a.trace ++ b.trace ++ s.1) =
          (mapiter c.indexes r).1.map Prod.fst := by
        rw [indexNames_append, ns, List.append_nil, nab]
      have prog : (∀ e ∈ a.trace ++ b.trace ++ s.1, e.failed = false) →
          (a.trace ++ b.trace ++ s.1).map Event.kind = expectedKinds c.indexes.length := by
        intro hnf
        rcases ps with h | ⟨x, hx, hf⟩
        · rw [List.map_append, List.map_append, hafull, hbfull, h, expectedKinds]
        · rw [hnf x (List.mem_append_right _ hx)] at hf; cases hf
      have done : (∀ e ∈ a.trace ++ b.trace ++ s.1, intendedOp c e.op) ∧
          (∃ order : List (String × schema.Index), order.Perm c.indexes ∧
            indexNames (a.trace ++ b.trace ++ s.1) <+: order.map Prod.fst ∧
            ((∃ e ∈ a.trace ++ b.trace ++ s.1,
                e.kind ≠ Kind.createCollection ∧ e.kind ≠ Kind.createIndex) →
              indexNames (a.trace ++ b.trace ++ s.1) = order.map Prod.fst)) ∧
          Faithful db hist (a.trace ++ b.trace ++ s.1) ∧
          (∀ e ∈ (a.trace ++ b.trace ++ s.1).dropLast, e.failed = false) :=
        ⟨iabs, ⟨_, hperm, by rw [nabs], fun _ => nabs⟩, habs.1, habs.2⟩
      simp only []
      cases hso : s.2 with
      | panic p => exact absurd hso (hsp p)
      | err e =>
        simp only []
        exact ⟨done.1, done.2.1, done.2.2.1, done.2.2.2, fun h => Or.inl (prog h)⟩
      | ok rawStat =>
        simp only []
        cases hsc : collection.scaleStat rawStat size b.rnd with
        | error p =>
          simp only []
          exact ⟨done.1, done.2.1, done.2.2.1, done.2.2.2, fun h => Or.inl (prog h)⟩
        | ok stat =>
          simp only []
          exact ⟨done.1, done.2.1, done.2.2.1, done.2.2.2, fun h => Or.inl (prog h)⟩

theorem New_fields (maxAlloc : Nat) (name : String) (schm : schema.Collection)
    (c : collection.Collection) (h : collection.New maxAlloc name schm = .ok c) :
    c.Name = name ∧ c.indexes = schm.Indexes ∧
      schm.GetDocGenerator maxAlloc = .ok c.generateDoc := by
  simp only [collection.New] at h
  cases hg : schm.GetDocGenerator maxAlloc with
  | error e => simp [hg] at h
  | ok g =>
    simp only [hg, Except.ok.injEq] at h
    rw [← h]
    exact ⟨rfl, rfl, rfl⟩

/-- C7. `Stat` against an arbitrary store, whose answers may depend on
everything issued before.  (1) The requests issued are an initial part of:
createCollection, one createIndex per declared index, 10 insert batches,
validate, reIndex, collStats.  (2) Each request is the intended one: on the
collection's name, a declared index with its key parts and uniqueness flag,
a batch of 1000 generated documents, one of the three commands; the indexes
are created in one order of the declared indexes, each once, all of them
before anything else is issued.  (3) The recorded flags are the store's
answers, and only the last request issued can have failed: `Stat` stops at
the first failure.  (4) Progress: if no request failed, the whole sequence
was issued, unless a document generation panicked (then `Stat` panics with
it).  (5) If createCollection or a createIndex failed, nothing but
createCollection and createIndex requests was issued.  (6) If an insert batch
failed, no validate, reIndex or collStats was issued.  (7) If any request
failed, `Stat` returns an error and no `Stat` value; an error is returned only
after a failed last request or after the whole sequence.  (8) A `Stat` value
is returned only after the whole sequence was issued without failure. -/
theorem stat_fail_fast (c : collection.Collection) (db : Database) (size : Nat)
    (hist : List Event) (r : Rand) :
    ((c.Stat db size hist r).1.map Event.kind <+: expectedKinds c.indexes.length) ∧
    ((∀ e ∈ (c.Stat db size hist r).1, intendedOp c e.op) ∧
      ∃ order : List (String × schema.Index), order.Perm c.indexes ∧
        indexNames (c.Stat db size hist r).1 <+: order.map Prod.fst ∧
        ((∃ e ∈ (c.Stat db size hist r).1,
            e.kind ≠ Kind.createCollection ∧ e.kind ≠ Kind.createIndex) →
          indexNames (c.Stat db size hist r).1 = order.map Prod.fst)) ∧
    (Faithful db hist (c.Stat db size hist r).1 ∧
      ∀ e ∈ (c.Stat db size hist r).1.dropLast, e.failed = false) ∧
    ((∀ e ∈ (c.Stat db size hist r).1, e.failed = false) →
      (c.Stat db size hist r).1.map Event.kind = expectedKinds c.indexes.length ∨
      ∃ p r1, (c.Stat db size hist r).2 = .panic p ∧ c.generateDoc r1 = .error p) ∧
    ((∃ e ∈ (c.Stat db size hist r).1, e.failed = true ∧
        (e.kind = Kind.createCollection ∨ e.kind = Kind.createIndex)) →
      ∀ e ∈ (c.Stat db size hist r).1,
        e.kind = Kind.createCollection ∨ e.kind = Kind.createIndex) ∧
    ((∃ e ∈ (c.Stat db size hist r).1, e.failed = true ∧ e.kind = Kind.insert) →
      ∀ e ∈ (c.Stat db size hist r).1,
        e.kind ≠ Kind.validate ∧ e.kind ≠ Kind.reIndex ∧ e.kind ≠ Kind.collStats) ∧
    (((∃ e ∈ (c.Stat db size hist r).1, e.failed = true) →
        ∃ msg, (c.Stat db size hist r).2 = .err msg) ∧
      ∀ msg, (c.Stat db size hist r).2 = .err msg →
        (∃ e, (c.Stat db size hist r).1.getLast? = some e ∧ e.failed = true) ∨
        (c.Stat db size hist r).1.map Event.kind = expectedKinds c.indexes.length) ∧
    (∀ stat, (c.Stat db size hist r).2 = .ok stat →
      (c.Stat db size hist r).1.map Event.kind = expectedKinds c.indexes.length ∧
        ∀ e ∈ (c.Stat db size hist r).1, e.failed = false) := by
  obtain ⟨b1, b2, b3, b4, b5⟩ := stat_trace_bounds c db size hist r
  obtain ⟨p1, p2, p3, p4, p5⟩ := stat_trace_progress c db size hist r
  refine ⟨b1, ⟨p1, p2⟩, ⟨p3, p4⟩, p5, b2, b3, ⟨b4, ?_⟩, b5⟩
  intro msg hmsg
  by_cases hf : ∃ e ∈ (c.Stat db size hist r).1, e.failed = true
  · obtain ⟨e, he, hef⟩ := hf
    left
    rcases mem_dropLast_or_getLast _ e he with h | h
    · rw [p4 e h] at hef; cases hef
    · exact ⟨e, h, hef⟩
  · right
    have hnf : ∀ e ∈ (c.Stat db size hist r).1, e.failed = false := by
      intro e he
      cases hfe : e.failed with
      | false => rfl
      | true => exact absurd ⟨e, he, hfe⟩ hf
    rcases p5 hnf with h | ⟨p, r1, hp, _⟩
    · exact h
    · rw [hmsg] at hp; cases hp

/-- Two runs for C7.  Against a store that accepts everything, `Stat` on the
collection `orders` issues the whole sequence (createCollection, 10 inserts,
validate, reIndex, collStats) and no request fails.  Against a store that
refuses index creation, `Stat` on a collection with one index issues
createCollection and the createIndex, returns an error, and issues no insert
and no admin command. -/
theorem stat_fail_fast_witness :
    (∃ c, collection.New 0 "orders" ordersSchema = .ok c ∧
      (c.Stat (replyingStore [("storageSize", Value.int32 1000),
          ("indexSizes", Value.map [])]) 50000 [] (fun _ => 0)).1.map Event.kind =
        [Kind.createCollection, Kind.insert, Kind.insert, Kind.insert, Kind.insert,
          Kind.insert, Kind.insert, Kind.insert, Kind.insert, Kind.insert, Kind.insert,
          Kind.validate, Kind.reIndex, Kind.collStats] ∧
      ∀ e ∈ (c.Stat (replyingStore [("storageSize", Value.int32 1000),
          ("indexSizes", Value.map [])]) 50000 [] (fun _ => 0)).1, e.failed = false) ∧
    (∃ c, collection.New 64 "users" usersSchema = .ok c ∧
      (c.Stat noIndexStore 20000 [] (fun _ => 0)).1 =
        [⟨Op.createCollection "users", false⟩,
          ⟨Op.createOne "users" [("name", Value.int32 1)] "by_name" true [], true⟩] ∧
      (∃ msg, (c.Stat noIndexStore 20000 [] (fun _ => 0)).2 = .err msg) ∧
      ∀ e ∈ (c.Stat noIndexStore 20000 [] (fun _ => 0)).1,
        e.kind = Kind.createCollection ∨ e.kind = Kind.createIndex) := by
  constructor
  · obtain ⟨c, hc⟩ : ∃ c, collection.New 0 "orders" ordersSchema = .ok c := ⟨_, rfl⟩
    obtain ⟨_, hidx, _⟩ := New_fields 0 "orders" ordersSchema c hc
    obtain ⟨_, _, ⟨hfaith, _⟩, hprog, _⟩ := stat_fail_fast c
      (replyingStore [("storageSize", Value.int32 1000), ("indexSizes", Value.map [])])
      50000 [] (fun _ => 0)
    have hnf := Faithful_no_failure _ (fun _ _ => rfl) _ _ hfaith
    refine ⟨c, hc, ?_, hnf⟩
    rcases hprog hnf with h | ⟨p, r1, _, hg⟩
    · rw [h, hidx]; rfl
    · obtain ⟨d, r2, hd⟩ := orders_generateDoc_total c hc r1
      rw [hd] at hg; cases hg
  · refine ⟨_, rfl, rfl, ?_, ?_⟩
    · exact (stat_fail_fast _ noIndexStore 20000 [] (fun _ => 0)).2.2.2.2.2.2.1.1
        ⟨⟨Op.createOne "users" [("name", Value.int32 1)] "by_name" true [], true⟩,
          by
            show _ ∈ [(⟨Op.createCollection "users", false⟩ : Event),
              ⟨Op.createOne "users" [("name", Value.int32 1)] "by_name" true [], true⟩]
            exact List.mem_cons_of_mem _ (List.mem_singleton.mpr rfl), rfl⟩
    · exact (stat_fail_fast _ noIndexStore 20000 [] (fun _ => 0)).2.2.2.2.1
        ⟨⟨Op.createOne "users" [("name", Value.int32 1)] "by_name" true [], true⟩,
          by
            show _ ∈ [(⟨Op.createCollection "users", false⟩ : Event),
              ⟨Op.createOne "users" [("name", Value.int32 1)] "by_name" true [], true⟩]
            exact List.mem_cons_of_mem _ (List.mem_singleton.mpr rfl), rfl, Or.inr rfl⟩

end Mgo
